import Mathlib

/-!
# Verification of the olsr-simulation core (Go) against its specification

Shallow embedding of the repository's link oracle (`link.go`), message model
(`message.go`) and per-node OLSR engine (`node.go`) into Lean, with theorems
settling the frozen behavioural claims.

Modelling conventions:
* A Go `map[NodeID]V` is embedded as an association list `List (NodeID × V)`.
  `alookup` is map indexing, `ainsert` is map assignment (`m[k] = v`), and
  iteration over the map is iteration over the list.  Go's map iteration order
  is unspecified; the list order is one admissible order.  A value read of a
  missing key yields the zero value, which is made explicit at each use site
  (`(alookup m k).getD default`).
* A Go `map[NodeID]NodeID` used as a set (value = key everywhere in the
  source) is embedded as a duplicate-free `List NodeID`; `sinsert` is the
  set-style assignment `m[k] = k` and `List.erase` is `delete`.
* Go `int` tick counters and hold times are embedded as `Nat` (they start at
  0 and only grow in the source); message sequence numbers are embedded as
  `Int`, matching the signed comparisons in the handlers.
* Fallible operations (a Go `panic` or a returned `error`) are embedded as
  `Option`/`Except`.
* Log files are embedded as lists of written lines carried in the node state.
-/

set_option maxHeartbeats 1000000

/-- `NodeID` (node.go): a unique identifier used to differentiate nodes. -/
abbrev NodeID := Nat

/-- Indexing a Go map embedded as an association list: `v, ok := m[k]`. -/
def alookup {α : Type} : List (NodeID × α) → NodeID → Option α
  | [], _ => none
  | (k', v) :: rest, k => if k' = k then some v else alookup rest k

/-- Assignment into a Go map embedded as an association list: `m[k] = v`.
Replaces the binding in place when the key is present, otherwise appends. -/
def ainsert {α : Type} : List (NodeID × α) → NodeID → α → List (NodeID × α)
  | [], k, v => [(k, v)]
  | (k', v') :: rest, k, v =>
      if k' = k then (k, v) :: rest else (k', v') :: ainsert rest k v

/-- The key set of an embedded Go map. -/
def akeys {α : Type} (m : List (NodeID × α)) : List NodeID := m.map Prod.fst

/-- Assignment `m[k] = k` into a Go map used as a set of node ids. -/
def sinsert (l : List NodeID) (k : NodeID) : List NodeID :=
  if k ∈ l then l else l ++ [k]

/-! ## Link oracle (link.go) -/

/-- `LinkStatus` (link.go): whether a link is available or not. -/
inductive LinkStatus where
  | UP : LinkStatus
  | DOWN : LinkStatus
deriving DecidableEq, Repr

/-- `LinkState` (link.go): a link's state at a given moment in time.
`parseLinkState` rejects negative times, so `time` is a `Nat`. -/
structure LinkState where
  time : Nat
  status : LinkStatus
  fromNode : NodeID
  toNode : NodeID
deriving DecidableEq, Repr

/-- `Link` (link.go): a directed pair with its ordered list of states. -/
structure Link where
  fromNode : NodeID
  toNode : NodeID
  states : List LinkState
deriving DecidableEq, Repr

/-- The body of the scan loop in `Link.isUp` (link.go lines 101-110). -/
def isUpStep (time : Nat) (up : Bool) (state : LinkState) : Bool :=
  if time ≥ state.time ∧ state.status = LinkStatus.UP then true
  else if time ≥ state.time ∧ state.status = LinkStatus.DOWN then false
  else up

/-- `Link.isUp` (link.go lines 99-112): scans the whole state list; every
record whose time has arrived overwrites the accumulator with its status. -/
def Link.isUp (l : Link) (time : Nat) : Bool :=
  l.states.foldl (isUpStep time) false

/-- `QueryMsg` (link.go). -/
structure QueryMsg where
  fromNode : NodeID
  toNode : NodeID
  timeQuantum : Nat
deriving DecidableEq, Repr

/-- `NetworkTypology` (link.go): mapping from-node → (to-node → Link). -/
structure NetworkTypology where
  links : List (NodeID × List (NodeID × Link))
deriving DecidableEq, Repr

/-- `NetworkTypology.Query` (link.go lines 211-223): a missing entry at
either level reports `false`. -/
def NetworkTypology.Query (n : NetworkTypology) (msg : QueryMsg) : Bool :=
  match alookup n.links msg.fromNode with
  | none => false
  | some links =>
    match alookup links msg.toNode with
    | none => false
    | some link => link.isUp msg.timeQuantum

/-- One step of the construction loop in `NewNetworkTypology` (link.go lines
183-204): add the record to the link for its ordered pair, creating the
per-source map and the link as needed. -/
def addLinkState (links : List (NodeID × List (NodeID × Link))) (ls : LinkState) :
    List (NodeID × List (NodeID × Link)) :=
  match alookup links ls.fromNode with
  | none =>
      ainsert links ls.fromNode
        [(ls.toNode, { fromNode := ls.fromNode, toNode := ls.toNode, states := [ls] })]
  | some dsts =>
    match alookup dsts ls.toNode with
    | none =>
        ainsert links ls.fromNode
          (ainsert dsts ls.toNode
            { fromNode := ls.fromNode, toNode := ls.toNode, states := [ls] })
    | some dst =>
        ainsert links ls.fromNode
          (ainsert dsts ls.toNode { dst with states := dst.states ++ [ls] })

/-- The record-processing loop of `NewNetworkTypology` (link.go lines
150-208), over already-parsed records.  `currTime` starts at 0 and every
record's time must be ≥ the previous one, else construction errors out. -/
def buildTypology : List LinkState → Nat → List (NodeID × List (NodeID × Link)) →
    Except String NetworkTypology
  | [], _, links => Except.ok { links := links }
  | ls :: rest, currTime, links =>
      if ls.time < currTime then
        Except.error "entries in input must be sorted by increasing time"
      else buildTypology rest ls.time (addLinkState links ls)

/-- `NewNetworkTypology` (link.go): construction from parsed link states. -/
def NewNetworkTypology (input : List LinkState) : Except String NetworkTypology :=
  buildTypology input 0 []

/-! ## Message model (message.go) -/

/-- `HelloMessage` (message.go). -/
structure HelloMessage where
  src : NodeID
  unidir : List NodeID
  bidir : List NodeID
  mpr : List NodeID
  seq : Int
deriving DecidableEq, Repr

/-- `DataMessage` (message.go). -/
structure DataMessage where
  src : NodeID
  dst : NodeID
  nxtHop : NodeID
  fromnbr : NodeID
  data : String
deriving DecidableEq, Repr

/-- `TCMessage` (message.go). -/
structure TCMessage where
  src : NodeID
  fromnbr : NodeID
  seq : Int
  ms : List NodeID
deriving DecidableEq, Repr

/-! ## Node data model (node.go) -/

/-- `TopologyEntry` (node.go). -/
structure TopologyEntry where
  dst : NodeID
  originator : NodeID
  holdUntil : Nat
  seq : Int
deriving DecidableEq, Repr

/-- `RoutingEntry` (node.go). -/
structure RoutingEntry where
  dst : NodeID
  nextHop : NodeID
  distance : Nat
deriving DecidableEq, Repr

/-- `NeighborState` (node.go).  Declaration order matches the Go `iota`
constants, so `Bidirectional` is the zero value of the type. -/
inductive NeighborState where
  | Bidirectional : NeighborState
  | Unidirectional : NeighborState
  | MPR : NeighborState
deriving DecidableEq, Repr

/-- `OneHopNeighborEntry` (node.go). -/
structure OneHopNeighborEntry where
  neighborID : NodeID
  state : NeighborState
  holdUntil : Nat
deriving DecidableEq, Repr

/-- The Go zero value of `oneHopNeighborEntry`, produced by reading a missing
key (`ohn, _ := oneHopNeighbors[neighbor]` in `calculateMPRs`). -/
def zeroOneHopEntry : OneHopNeighborEntry :=
  { neighborID := 0, state := NeighborState.Bidirectional, holdUntil := 0 }

/-- One line written to a node's log files. -/
inductive LogLine where
  | hello : HelloMessage → LogLine
  | tc : TCMessage → LogLine
  | data : DataMessage → LogLine
deriving DecidableEq, Repr

/-- The mutable state of a `Node` (node.go), excluding the channels and the
wall-clock ticker, which belong to the scheduling shell. -/
structure Node where
  id : NodeID
  routingTable : List (NodeID × RoutingEntry)
  routesChanged : Bool
  topologyTable : List (NodeID × List (NodeID × TopologyEntry))
  tcSequenceNum : Int
  oneHopNeighbors : List (NodeID × OneHopNeighborEntry)
  twoHopNeighbors : List (NodeID × List NodeID)
  msSet : List NodeID
  currentTick : Nat
  helloSequences : List (NodeID × Int)
  helloSequenceNum : Int
  inLog : List LogLine
  outLog : List LogLine
  receivedLog : List String
deriving DecidableEq, Repr

/-- `neighborHoldTime` as set in `NewNode` (node.go line 620). -/
def neighborHoldTime : Nat := 15

/-- `topologyHoldTime` as set in `NewNode` (node.go line 615). -/
def topologyHoldTime : Nat := 30

/-- The node state established by `NewNode` (node.go lines 582-622):
empty tables, zero sequence counters, `routesChanged` set, empty logs. -/
def initNode (id : NodeID) : Node :=
  { id := id
    routingTable := []
    routesChanged := true
    topologyTable := []
    tcSequenceNum := 0
    oneHopNeighbors := []
    twoHopNeighbors := []
    msSet := []
    currentTick := 0
    helloSequences := []
    helloSequenceNum := 0
    inLog := []
    outLog := []
    receivedLog := [] }

/-! ## Node engine (node.go) -/

/-- `updateOneHopNeighbors` (node.go lines 348-379): a first HELLO from a
source inserts it as `Unidirectional`; a later HELLO refreshes the hold time
and makes it `Bidirectional` exactly when the receiver's id appears in any of
the message's three lists. -/
def updateOneHopNeighbors (msg : HelloMessage)
    (oneHopNeighbors : List (NodeID × OneHopNeighborEntry)) (holdUntil : Nat)
    (id : NodeID) : List (NodeID × OneHopNeighborEntry) :=
  match alookup oneHopNeighbors msg.src with
  | none =>
      ainsert oneHopNeighbors msg.src
        { neighborID := msg.src, state := NeighborState.Unidirectional,
          holdUntil := holdUntil }
  | some entry =>
      let included := id ∈ msg.unidir ++ (msg.bidir ++ msg.mpr)
      ainsert oneHopNeighbors msg.src
        { entry with
          holdUntil := holdUntil
          state := if included then NeighborState.Bidirectional
                   else NeighborState.Unidirectional }

/-- `updateTwoHopNeighbors` (node.go lines 382-394): the source's two-hop
slot is rebuilt from scratch out of the message's Bidirectional and MPR
lists, skipping the receiver's own id. -/
def updateTwoHopNeighbors (msg : HelloMessage)
    (twoHopNeighbors : List (NodeID × List NodeID)) (id : NodeID) :
    List (NodeID × List NodeID) :=
  let twoHops := (msg.bidir ++ msg.mpr).foldl
    (fun twoHops nodeID => if nodeID = id then twoHops else sinsert twoHops nodeID) []
  ainsert twoHopNeighbors msg.src twoHops

/-- An element of the candidate slice built inside `calculateMPRs`
(node.go lines 400-418). -/
structure CandInfo where
  id : NodeID
  reaches : Nat
deriving DecidableEq, Repr

/-- The body of the candidate-collection loop of `calculateMPRs` (node.go
lines 404-418): skip neighbors whose one-hop entry (zero value when absent)
is `Unidirectional`; record each remaining neighbor with its reach count and
pour its two-hop set into the uncovered set. -/
def candStep (oneHopNeighbors : List (NodeID × OneHopNeighborEntry))
    (acc : List CandInfo × List NodeID) (kv : NodeID × List NodeID) :
    List CandInfo × List NodeID :=
  let ohn := (alookup oneHopNeighbors kv.1).getD zeroOneHopEntry
  if ohn.state = NeighborState.Unidirectional then acc
  else (acc.1 ++ [{ id := kv.1, reaches := kv.2.length }],
        kv.2.foldl sinsert acc.2)

/-- The candidate-collection loop of `calculateMPRs` (node.go lines 404-418),
iterating over the two-hop table. -/
def buildCandidates (oneHopNeighbors : List (NodeID × OneHopNeighborEntry))
    (twoHopNeighbors : List (NodeID × List NodeID)) :
    List CandInfo × List NodeID :=
  twoHopNeighbors.foldl (candStep oneHopNeighbors) ([], [])

/-- The greedy selection loop of `calculateMPRs` (node.go lines 428-437):
while the uncovered set is non-empty, pop the head candidate, select it, and
remove everything it reaches.  Popping `nodes[0]` from an empty slice is a Go
runtime panic, embedded as `none`. -/
def mprLoop (twoHopNeighbors : List (NodeID × List NodeID)) :
    List CandInfo → List NodeID → Option (List NodeID)
  | _, [] => some []
  | [], _ :: _ => none
  | n :: rest, x :: remaining =>
      let reaches := (alookup twoHopNeighbors n.id).getD []
      match mprLoop twoHopNeighbors rest
        ((x :: remaining).filter (fun k => k ∉ reaches)) with
      | none => none
      | some mprs => some (n.id :: mprs)

/-- The state-update loop of `calculateMPRs` (node.go lines 440-451):
selected neighbors become `MPR`; previously-`MPR` neighbors that were not
selected are demoted to `Bidirectional`. -/
def updateMPRStates (oneHopNeighbors : List (NodeID × OneHopNeighborEntry))
    (mprs : List NodeID) : List (NodeID × OneHopNeighborEntry) :=
  oneHopNeighbors.map
    (fun kv =>
      if kv.1 ∈ mprs then (kv.1, { kv.2 with state := NeighborState.MPR })
      else if kv.2.state = NeighborState.MPR then
        (kv.1, { kv.2 with state := NeighborState.Bidirectional })
      else kv)

/-- `calculateMPRs` (node.go lines 397-453).  The candidate slice is sorted
stably in descending reach order (`sort.SliceStable` with `reaches >`), which
is the stable insertion sort under `·.reaches ≥ ·.reaches`.  `none` embeds
the panic of popping from an empty candidate slice. -/
def calculateMPRs (oneHopNeighbors : List (NodeID × OneHopNeighborEntry))
    (twoHopNeighbors : List (NodeID × List NodeID)) :
    Option (List (NodeID × OneHopNeighborEntry)) :=
  let built := buildCandidates oneHopNeighbors twoHopNeighbors
  let nodes := built.1.insertionSort (fun a b => a.reaches ≥ b.reaches)
  match mprLoop twoHopNeighbors nodes built.2 with
  | none => none
  | some mprs => some (updateMPRStates oneHopNeighbors mprs)

/-- The body of the one-hop loop of `calculateRoutingTable` (node.go lines
296-304): a route of distance 1 for every `Bidirectional` or `MPR` one-hop
neighbor. -/
def route1Step (rt : List (NodeID × RoutingEntry))
    (kv : NodeID × OneHopNeighborEntry) : List (NodeID × RoutingEntry) :=
  if kv.2.state = NeighborState.Bidirectional ∨ kv.2.state = NeighborState.MPR then
    ainsert rt kv.2.neighborID
      { dst := kv.2.neighborID, nextHop := kv.2.neighborID, distance := 1 }
  else rt

/-- Phase 1 of `calculateRoutingTable` (node.go lines 296-304). -/
def routePhase1 (oneHopNeighbors : List (NodeID × OneHopNeighborEntry)) :
    List (NodeID × RoutingEntry) :=
  oneHopNeighbors.foldl route1Step []

/-- The body of the two-hop loop of `calculateRoutingTable` (node.go lines
307-318): a route of distance 2 through the owning neighbor `nbr` for a
two-hop destination that has no route yet. -/
def route2Step (nbr : NodeID) (rt : List (NodeID × RoutingEntry)) (dst : NodeID) :
    List (NodeID × RoutingEntry) :=
  match alookup rt dst with
  | some _ => rt
  | none => ainsert rt dst { dst := dst, nextHop := nbr, distance := 2 }

/-- Phase 2 of `calculateRoutingTable` (node.go lines 307-318). -/
def routePhase2 (twoHopNeighbors : List (NodeID × List NodeID))
    (rt : List (NodeID × RoutingEntry)) : List (NodeID × RoutingEntry) :=
  twoHopNeighbors.foldl (fun rt kv => kv.2.foldl (route2Step kv.1) rt) rt

/-- The body of the topology loop of `calculateRoutingTable` (node.go lines
323-339) at hop count `h`: for a topology entry whose destination has no
route but whose originator is routed at distance `h`, add a route of
distance `h + 1` sharing the originator's next hop and record that the pass
added something. -/
def route3Step (h : Nat) (acc : List (NodeID × RoutingEntry) × Bool)
    (ekv : NodeID × TopologyEntry) : List (NodeID × RoutingEntry) × Bool :=
  match alookup acc.1 ekv.2.dst with
  | some _ => acc
  | none =>
    match alookup acc.1 ekv.2.originator with
    | none => acc
    | some rEntry =>
      if rEntry.distance = h then
        (ainsert acc.1 ekv.2.dst
          { dst := ekv.2.dst, nextHop := rEntry.nextHop, distance := h + 1 },
         true)
      else acc

/-- One pass of the topology phase of `calculateRoutingTable` (node.go lines
322-340) at hop count `h`; the boolean records whether the pass added any
entry. -/
def routePass (topologyTable : List (NodeID × List (NodeID × TopologyEntry)))
    (h : Nat) (rt : List (NodeID × RoutingEntry)) :
    List (NodeID × RoutingEntry) × Bool :=
  topologyTable.foldl (fun acc okv => okv.2.foldl (route3Step h) acc) (rt, false)

/-- The hop-count loop of `calculateRoutingTable` (node.go lines 321-344):
`for h := 2; h < 256; h++`, breaking as soon as a pass adds no entry. -/
def routePhase3 (topologyTable : List (NodeID × List (NodeID × TopologyEntry))) :
    List Nat → List (NodeID × RoutingEntry) → List (NodeID × RoutingEntry)
  | [], rt => rt
  | h :: hs, rt =>
      let pass := routePass topologyTable h rt
      if pass.2 then routePhase3 topologyTable hs pass.1 else pass.1

/-- `calculateRoutingTable` (node.go lines 291-345) as a pure function of the
three tables it reads. -/
def calculateRoutingTable (oneHopNeighbors : List (NodeID × OneHopNeighborEntry))
    (twoHopNeighbors : List (NodeID × List NodeID))
    (topologyTable : List (NodeID × List (NodeID × TopologyEntry))) :
    List (NodeID × RoutingEntry) :=
  routePhase3 topologyTable (List.range' 2 254)
    (routePhase2 twoHopNeighbors (routePhase1 oneHopNeighbors))

/-- The routing-recalculation step of the tick loop (node.go lines 188-191). -/
def recalcRoutes (n : Node) : Node :=
  { n with
    routingTable :=
      calculateRoutingTable n.oneHopNeighbors n.twoHopNeighbors n.topologyTable
    routesChanged := false }

/-- The expiry sweep of the tick loop (node.go lines 172-186): drop one-hop
entries whose hold time has passed together with their two-hop slot, and drop
expired topology entries (outer originator keys are kept, as in the Go code,
which deletes only from the inner maps). -/
def expireEntries (n : Node) : Node :=
  { n with
    oneHopNeighbors :=
      n.oneHopNeighbors.filter (fun kv => ¬ kv.2.holdUntil ≤ n.currentTick)
    twoHopNeighbors :=
      n.twoHopNeighbors.filter
        (fun kv =>
          match alookup n.oneHopNeighbors kv.1 with
          | some entry => ¬ entry.holdUntil ≤ n.currentTick
          | none => true)
    topologyTable :=
      n.topologyTable.map
        (fun okv => (okv.1, okv.2.filter (fun kv => ¬ kv.2.holdUntil ≤ n.currentTick))) }

/-- The partitioning loop of `sendHello` (node.go lines 216-231): each
one-hop entry's `neighborID` is appended to the list matching its state. -/
def helloLists (oneHopNeighbors : List (NodeID × OneHopNeighborEntry)) :
    List NodeID × List NodeID × List NodeID :=
  oneHopNeighbors.foldl
    (fun acc kv =>
      match kv.2.state with
      | NeighborState.Unidirectional => (acc.1 ++ [kv.2.neighborID], acc.2.1, acc.2.2)
      | NeighborState.Bidirectional => (acc.1, acc.2.1 ++ [kv.2.neighborID], acc.2.2)
      | NeighborState.MPR => (acc.1, acc.2.1, acc.2.2 ++ [kv.2.neighborID]))
    ([], [], [])

/-- The HELLO constructed by `sendHello` (node.go lines 233-239). -/
def buildHello (n : Node) : HelloMessage :=
  let lists := helloLists n.oneHopNeighbors
  { src := n.id, unidir := lists.1, bidir := lists.2.1, mpr := lists.2.2,
    seq := n.helloSequenceNum }

/-- `sendHello` (node.go lines 215-247): broadcast the built HELLO, bump the
sequence counter and log the message to the out log.  Returns the new state
and the emitted message. -/
def sendHello (n : Node) : Node × HelloMessage :=
  let hello := buildHello n
  ({ n with
      helloSequenceNum := n.helloSequenceNum + 1
      outLog := n.outLog ++ [LogLine.hello hello] },
   hello)

/-- `sendTC` (node.go lines 250-274): broadcast a TC carrying the msSet
sorted ascending (`sort.SliceStable` with `<`), bump the TC sequence counter
and log the message to the out log. -/
def sendTC (n : Node) : Node × TCMessage :=
  let tc : TCMessage :=
    { src := n.id, fromnbr := n.id, seq := n.tcSequenceNum,
      ms := n.msSet.insertionSort (fun a b => a ≤ b) }
  ({ n with
      tcSequenceNum := n.tcSequenceNum + 1
      outLog := n.outLog ++ [LogLine.tc tc] },
   tc)

/-- `sendData` (node.go lines 197-212): if the routing table has a route to
the destination, rewrite `fromnbr`/`nxtHop`, emit the message, and log it —
to the node's IN log, exactly as the source does (`fmt.Fprintln(n.inputLog,
msg)` on line 204).  Returns the new state, the emitted message (if any) and
the Go function's boolean result. -/
def sendData (n : Node) (msg : DataMessage) : Node × Option DataMessage × Bool :=
  match alookup n.routingTable msg.dst with
  | some route =>
      let m := { msg with fromnbr := n.id, nxtHop := route.nextHop }
      ({ n with inLog := n.inLog ++ [LogLine.data m] }, some m, true)
  | none => (n, none, false)

/-- `handleData` (node.go lines 499-508): deliver locally when addressed to
this node (logging the payload to the received log), else forward through
`sendData`. -/
def handleData (n : Node) (msg : DataMessage) : Node × Option DataMessage :=
  if msg.dst = n.id then
    ({ n with receivedLog := n.receivedLog ++ [msg.data] }, none)
  else
    let sent := sendData n msg
    (sent.1, sent.2.1)

/-- The body of `handleHello` after the sequence filter (node.go lines
469-496): update the one-hop and two-hop tables, recompute MPRs (`none`
propagates the panic case of `calculateMPRs`), reconcile msSet membership
with the message's MPR list, and flag the routes as changed. -/
def handleHelloBody (n : Node) (msg : HelloMessage) : Option Node :=
  let oneHop := updateOneHopNeighbors msg n.oneHopNeighbors
    (n.currentTick + neighborHoldTime) n.id
  let twoHop := updateTwoHopNeighbors msg n.twoHopNeighbors n.id
  match calculateMPRs oneHop twoHop with
  | none => none
  | some oneHop' =>
      let isMS := n.id ∈ msg.mpr
      let wasMS := n.msSet.contains msg.src
      let msSet :=
        if wasMS ∧ ¬ isMS then n.msSet.erase msg.src
        else if ¬ wasMS ∧ isMS then n.msSet ++ [msg.src]
        else n.msSet
      some { n with
        oneHopNeighbors := oneHop'
        twoHopNeighbors := twoHop
        msSet := msSet
        routesChanged := true }

/-- `handleHello` (node.go lines 456-497): drop the message when a sequence
number is recorded for the source and the message's sequence is not strictly
greater; otherwise record the new sequence and process the message. -/
def handleHello (n : Node) (msg : HelloMessage) : Option Node :=
  match alookup n.helloSequences msg.src with
  | none =>
      handleHelloBody
        { n with helloSequences := ainsert n.helloSequences msg.src msg.seq } msg
  | some seq =>
      if msg.seq ≤ seq then some n
      else
        handleHelloBody
          { n with helloSequences := ainsert n.helloSequences msg.src msg.seq } msg

/-- The early-return check of `updateTopologyTable` (node.go lines 511-520):
true iff some destination listed in the TC has a recorded entry for this
originator with a strictly greater sequence. -/
def tcStale (msg : TCMessage)
    (topologyTable : List (NodeID × List (NodeID × TopologyEntry))) : Bool :=
  match alookup topologyTable msg.src with
  | none => false
  | some entries =>
      msg.ms.any
        (fun dst =>
          match alookup entries dst with
          | some entry => entry.seq > msg.seq
          | none => false)

/-- `updateTopologyTable` (node.go lines 510-539): if any destination listed
in the TC has a recorded entry for this originator with a strictly greater
sequence, return the table unchanged; otherwise wipe the originator's slot
and refill it from the listed destinations, skipping the node's own id. -/
def updateTopologyTable (msg : TCMessage)
    (topologyTable : List (NodeID × List (NodeID × TopologyEntry)))
    (holdUntil : Nat) (id : NodeID) :
    List (NodeID × List (NodeID × TopologyEntry)) :=
  if tcStale msg topologyTable then topologyTable
  else
    let cleared := ainsert topologyTable msg.src []
    msg.ms.foldl
      (fun tt dst =>
        if dst = id then tt
        else
          let entries := (alookup tt msg.src).getD []
          ainsert tt msg.src
            (ainsert entries dst
              { dst := dst, originator := msg.src, holdUntil := holdUntil,
                seq := msg.seq }))
      cleared

/-- `handleTC` (node.go lines 541-572): drop TCs originated by this node;
otherwise update the topology table, flag the routes as changed, and forward
the TC (with `fromnbr` rewritten to this node, logged to the out log) exactly
when the sending neighbor is in this node's msSet. -/
def handleTC (n : Node) (msg : TCMessage) : Node × Option TCMessage :=
  if msg.src = n.id then (n, none)
  else
    let n' := { n with
      topologyTable :=
        updateTopologyTable msg n.topologyTable (n.currentTick + topologyHoldTime) n.id
      routesChanged := true }
    let doFwd := n'.msSet.foldl (fun acc id => if id = msg.fromnbr then true else acc) false
    if doFwd then
      let m := { msg with fromnbr := n'.id }
      ({ n' with outLog := n'.outLog ++ [LogLine.tc m] }, some m)
    else (n', none)

/-- The tick-increment at the bottom of the run loop (node.go line 193). -/
def incTick (n : Node) : Node := { n with currentTick := n.currentTick + 1 }

/-! ## Reachable node states

One step of a node's tick loop (node.go lines 121-195) performs, in order:
at most one message dispatch, the periodic HELLO and TC emissions, an
optional DATA origination, the expiry sweep, the routing recalculation, and
the tick increment.  `Step` lists these state updates individually, so the
reachable set below over-approximates the states a running node can be in.
HELLO steps require `msg.src ≠ n.id`: the controller never delivers a node's
own broadcast back to it (controller.go lines 50-52 skip the sender), and
HELLOs are never forwarded, so a node can never receive a HELLO carrying its
own id as source. -/

inductive Step : Node → Node → Prop where
  | hello (n : Node) (msg : HelloMessage) (n' : Node) (hsrc : msg.src ≠ n.id)
      (h : handleHello n msg = some n') : Step n n'
  | tc (n : Node) (msg : TCMessage) : Step n (handleTC n msg).1
  | data (n : Node) (msg : DataMessage) : Step n (handleData n msg).1
  | sendH (n : Node) : Step n (sendHello n).1
  | sendT (n : Node) : Step n (sendTC n).1
  | sendD (n : Node) (msg : DataMessage) : Step n (sendData n msg).1
  | expire (n : Node) : Step n (expireEntries n)
  | recalc (n : Node) : Step n (recalcRoutes n)
  | tick (n : Node) : Step n (incTick n)

/-- Node states reachable from `NewNode` initialization by tick-loop steps. -/
inductive Reachable : Node → Prop where
  | init (id : NodeID) : Reachable (initNode id)
  | step {n n' : Node} : Reachable n → Step n n' → Reachable n'

/-! ## Properties stated by the claims -/

/-- Internal well-formedness of a node's neighbor tables: one-hop keys are
duplicate-free, every one-hop entry records its own key as `neighborID`, the
node itself is not among its one-hop neighbors, and every two-hop key is a
one-hop key. -/
def NodeWF (n : Node) : Prop :=
  (akeys n.oneHopNeighbors).Nodup ∧
  (∀ kv ∈ n.oneHopNeighbors, kv.2.neighborID = kv.1) ∧
  (∀ kv ∈ n.oneHopNeighbors, kv.1 ≠ n.id) ∧
  (∀ kv ∈ n.twoHopNeighbors, kv.1 ∈ akeys n.oneHopNeighbors)

/-- The routing-soundness property exactly as claim C3 states it, for one
routing entry `(d, next, k) = (kv.1, kv.2.nextHop, kv.2.distance)` with
respect to the final table `rt` and the three input tables.  The `k = 2`
case demands that the next hop be a one-hop neighbor in state
`Bidirectional` or `MPR`. -/
def ClaimedRouteSound (oneHopNeighbors : List (NodeID × OneHopNeighborEntry))
    (twoHopNeighbors : List (NodeID × List NodeID))
    (topologyTable : List (NodeID × List (NodeID × TopologyEntry)))
    (rt : List (NodeID × RoutingEntry)) (kv : NodeID × RoutingEntry) : Prop :=
  (kv.2.distance = 1 ∧ kv.2.nextHop = kv.1 ∧
    ∃ kw ∈ oneHopNeighbors, kw.2.neighborID = kv.1 ∧
      (kw.2.state = NeighborState.Bidirectional ∨ kw.2.state = NeighborState.MPR)) ∨
  (kv.2.distance = 2 ∧
    (∃ kw ∈ oneHopNeighbors, kw.2.neighborID = kv.2.nextHop ∧
      (kw.2.state = NeighborState.Bidirectional ∨ kw.2.state = NeighborState.MPR)) ∧
    ∃ kw ∈ twoHopNeighbors, kw.1 = kv.2.nextHop ∧ kv.1 ∈ kw.2) ∨
  (2 < kv.2.distance ∧
    ∃ O rEntry, alookup rt O = some rEntry ∧
      rEntry.distance = kv.2.distance - 1 ∧ rEntry.nextHop = kv.2.nextHop ∧
      ∃ okv ∈ topologyTable, ∃ ekv ∈ okv.2,
        ekv.2.dst = kv.1 ∧ ekv.2.originator = O)

/-- Claim C3 as stated, over a whole routing-table rebuild. -/
def ClaimedRoutingSoundness (oneHopNeighbors : List (NodeID × OneHopNeighborEntry))
    (twoHopNeighbors : List (NodeID × List NodeID))
    (topologyTable : List (NodeID × List (NodeID × TopologyEntry))) : Prop :=
  ∀ kv ∈ calculateRoutingTable oneHopNeighbors twoHopNeighbors topologyTable,
    ClaimedRouteSound oneHopNeighbors twoHopNeighbors topologyTable
      (calculateRoutingTable oneHopNeighbors twoHopNeighbors topologyTable) kv

/-- The corrected routing-soundness property for one routing entry: the
`k = 2` case only guarantees that the next hop owns a two-hop slot
containing the destination (the source adds distance-2 routes through any
key of the two-hop table, including `Unidirectional` neighbors). -/
def RouteSound (oneHopNeighbors : List (NodeID × OneHopNeighborEntry))
    (twoHopNeighbors : List (NodeID × List NodeID))
    (topologyTable : List (NodeID × List (NodeID × TopologyEntry)))
    (rt : List (NodeID × RoutingEntry)) (kv : NodeID × RoutingEntry) : Prop :=
  kv.2.dst = kv.1 ∧
  ((kv.2.distance = 1 ∧ kv.2.nextHop = kv.1 ∧
      ∃ kw ∈ oneHopNeighbors, kw.2.neighborID = kv.1 ∧
        (kw.2.state = NeighborState.Bidirectional ∨ kw.2.state = NeighborState.MPR)) ∨
   (kv.2.distance = 2 ∧ ∃ kw ∈ twoHopNeighbors, kw.1 = kv.2.nextHop ∧ kv.1 ∈ kw.2) ∨
   (2 < kv.2.distance ∧
     ∃ O rEntry, alookup rt O = some rEntry ∧
       rEntry.distance = kv.2.distance - 1 ∧ rEntry.nextHop = kv.2.nextHop ∧
       ∃ okv ∈ topologyTable, ∃ ekv ∈ okv.2,
         ekv.2.dst = kv.1 ∧ ekv.2.originator = O))

/-- A routing table all of whose entries satisfy the corrected soundness
property with respect to the table itself. -/
def SoundTable (oneHopNeighbors : List (NodeID × OneHopNeighborEntry))
    (twoHopNeighbors : List (NodeID × List NodeID))
    (topologyTable : List (NodeID × List (NodeID × TopologyEntry)))
    (rt : List (NodeID × RoutingEntry)) : Prop :=
  ∀ kv ∈ rt, RouteSound oneHopNeighbors twoHopNeighbors topologyTable rt kv

/-- Claim C4 as stated: after `calculateMPRs`, every two-hop destination
reachable via some one-hop neighbor whose state is not `Unidirectional` is
reachable via some neighbor whose resulting state is `MPR`. -/
def ClaimedMPRCoverage (oneHopNeighbors : List (NodeID × OneHopNeighborEntry))
    (twoHopNeighbors : List (NodeID × List NodeID)) : Prop :=
  ∀ result, calculateMPRs oneHopNeighbors twoHopNeighbors = some result →
    ∀ nbr entry d, alookup oneHopNeighbors nbr = some entry →
      entry.state ≠ NeighborState.Unidirectional →
      d ∈ (alookup twoHopNeighbors nbr).getD [] →
      ∃ m entry', alookup result m = some entry' ∧
        entry'.state = NeighborState.MPR ∧ d ∈ (alookup twoHopNeighbors m).getD []

/-- The drop condition of `updateTopologyTable` (node.go lines 511-520):
some destination listed in the TC has a recorded entry for this originator
whose sequence is strictly greater than the message's. -/
def TCDropCond (topologyTable : List (NodeID × List (NodeID × TopologyEntry)))
    (msg : TCMessage) : Prop :=
  ∃ entries, alookup topologyTable msg.src = some entries ∧
    ∃ dst ∈ msg.ms, ∃ entry, alookup entries dst = some entry ∧ entry.seq > msg.seq

/-- The node state reached when `initNode 0` processes a first HELLO from
node 1 advertising bidirectional neighbor 2 — a concrete reachable state
with a non-empty two-hop table. -/
def helloState1 : Node :=
  { id := 0
    routingTable := []
    routesChanged := true
    topologyTable := []
    tcSequenceNum := 0
    oneHopNeighbors := [(1, ⟨1, NeighborState.Unidirectional, 15⟩)]
    twoHopNeighbors := [(1, [2])]
    msSet := []
    currentTick := 0
    helloSequences := [(1, 0)]
    helloSequenceNum := 0
    inLog := []
    outLog := []
    receivedLog := [] }

/-! ## Lemmas about the embedded maps -/

theorem alookup_ainsert {α : Type} (l : List (NodeID × α)) (k : NodeID) (v : α)
    (k' : NodeID) :
    alookup (ainsert l k v) k' = if k = k' then some v else alookup l k' := by
  induction l with
  | nil => simp [ainsert, alookup]
  | cons kv rest ih =>
      obtain ⟨k₀, v₀⟩ := kv
      by_cases h : k₀ = k
      · subst h
        by_cases h' : k₀ = k' <;> simp [ainsert, alookup, h']
      · by_cases h' : k₀ = k'
        · subst h'
          have hkk' : ¬ k = k₀ := fun he => h he.symm
          simp [ainsert, alookup, h, hkk']
        · simp [ainsert, alookup, h, h', ih]

theorem mem_ainsert {α : Type} {l : List (NodeID × α)} {k : NodeID} {v : α} :
    ∀ {kv : NodeID × α}, kv ∈ ainsert l k v → kv = (k, v) ∨ kv ∈ l := by
  induction l with
  | nil =>
      intro kv h
      simpa [ainsert] using h
  | cons kv₀ rest ih =>
      intro kv h
      obtain ⟨k₀, v₀⟩ := kv₀
      by_cases hk : k₀ = k
      · subst hk
        simp only [ainsert, if_true, eq_self_iff_true, List.mem_cons, if_pos] at h
        rcases h with h | h
        · exact Or.inl h
        · exact Or.inr (List.mem_cons_of_mem _ h)
      · simp only [ainsert, if_neg hk, List.mem_cons] at h
        rcases h with h | h
        · exact Or.inr (List.mem_cons.mpr (Or.inl h))
        · rcases ih h with h' | h'
          · exact Or.inl h'
          · exact Or.inr (List.mem_cons_of_mem _ h')

theorem alookup_mem {α : Type} {l : List (NodeID × α)} {k : NodeID} {v : α} :
    alookup l k = some v → (k, v) ∈ l := by
  induction l with
  | nil =>
      intro h
      simp [alookup] at h
  | cons kv₀ rest ih =>
      intro h
      obtain ⟨k₀, v₀⟩ := kv₀
      by_cases hk : k₀ = k
      · subst hk
        simp [alookup] at h
        subst h
        exact List.mem_cons_self _ _
      · simp only [alookup, if_neg hk] at h
        exact List.mem_cons_of_mem _ (ih h)

theorem alookup_eq_none {α : Type} (l : List (NodeID × α)) (k : NodeID) :
    alookup l k = none ↔ k ∉ akeys l := by
  induction l with
  | nil => simp [alookup, akeys]
  | cons kv₀ rest ih =>
      obtain ⟨k₀, v₀⟩ := kv₀
      by_cases hk : k₀ = k
      · subst hk
        simp [alookup, akeys]
      · simp [alookup, akeys, hk, ih, Ne.symm hk]

theorem mem_akeys {α : Type} (l : List (NodeID × α)) (k : NodeID) :
    k ∈ akeys l ↔ ∃ v, alookup l k = some v := by
  rcases h : alookup l k with _ | v
  · simp [(alookup_eq_none l k).mp h, h]
  · have hm : (k, v) ∈ l := alookup_mem h
    constructor
    · intro _; exact ⟨v, rfl⟩
    · intro _
      exact List.mem_map.mpr ⟨(k, v), hm, rfl⟩

theorem alookup_of_mem_nodup {α : Type} {l : List (NodeID × α)}
    (hnd : (akeys l).Nodup) {k : NodeID} {v : α} (h : (k, v) ∈ l) :
    alookup l k = some v := by
  induction l with
  | nil => simp at h
  | cons kv₀ rest ih =>
      obtain ⟨k₀, v₀⟩ := kv₀
      simp only [akeys, List.map_cons, List.nodup_cons] at hnd
      rcases List.mem_cons.mp h with h' | h'
      · obtain ⟨hk, hv⟩ := Prod.mk.injEq .. ▸ h'.symm
        subst hk hv
        simp [alookup]
      · have hk : k₀ ≠ k := by
          intro he
          subst he
          exact hnd.1 (List.mem_map.mpr ⟨(k₀, v), h', rfl⟩)
        simp only [alookup, if_neg hk]
        exact ih hnd.2 h'

theorem akeys_ainsert_of_mem {α : Type} {l : List (NodeID × α)} {k : NodeID}
    (v : α) (h : k ∈ akeys l) : akeys (ainsert l k v) = akeys l := by
  induction l with
  | nil => simp [akeys] at h
  | cons kv₀ rest ih =>
      obtain ⟨k₀, v₀⟩ := kv₀
      by_cases hk : k₀ = k
      · subst hk; simp [ainsert, akeys]
      · have h' : k ∈ akeys rest := by
          simpa [akeys, Ne.symm hk] using h
        have ih' := ih h'
        simp only [akeys] at ih' ⊢
        simp [ainsert, hk, ih']

theorem akeys_ainsert_of_not_mem {α : Type} {l : List (NodeID × α)} {k : NodeID}
    (v : α) (h : k ∉ akeys l) : akeys (ainsert l k v) = akeys l ++ [k] := by
  induction l with
  | nil => simp [ainsert, akeys]
  | cons kv₀ rest ih =>
      obtain ⟨k₀, v₀⟩ := kv₀
      have hk : k₀ ≠ k := by
        intro he
        exact h (by simp only [akeys, List.map_cons]; exact he ▸ List.mem_cons_self _ _)
      have h' : k ∉ akeys rest := fun hm =>
        h (by simp only [akeys, List.map_cons]; exact List.mem_cons_of_mem _ hm)
      have ih' := ih h'
      simp only [akeys] at ih' ⊢
      simp [ainsert, hk, ih']

theorem nodup_akeys_ainsert {α : Type} {l : List (NodeID × α)} (k : NodeID) (v : α)
    (hnd : (akeys l).Nodup) : (akeys (ainsert l k v)).Nodup := by
  by_cases h : k ∈ akeys l
  · rw [akeys_ainsert_of_mem v h]; exact hnd
  · rw [akeys_ainsert_of_not_mem v h]
    simpa [List.nodup_append] using ⟨hnd, fun hm => h hm⟩

theorem mem_sinsert (l : List NodeID) (k x : NodeID) :
    x ∈ sinsert l k ↔ x ∈ l ∨ x = k := by
  unfold sinsert
  by_cases h : k ∈ l
  · simp only [if_pos h]
    constructor
    · exact Or.inl
    · rintro (hx | rfl)
      · exact hx
      · exact h
  · simp [if_neg h]

theorem mem_foldl_sinsert (l : List NodeID) (init : List NodeID) (x : NodeID) :
    x ∈ l.foldl sinsert init ↔ x ∈ init ∨ x ∈ l := by
  induction l generalizing init with
  | nil => simp
  | cons y rest ih =>
      simp only [List.foldl_cons, ih, mem_sinsert, List.mem_cons]
      tauto

/-- Invariant preservation along a left fold. -/
theorem foldl_inv {α β : Type} {f : β → α → β} {P : β → Prop} :
    ∀ (l : List α) (b : β), P b → (∀ b' a, a ∈ l → P b' → P (f b' a)) →
      P (l.foldl f b)
  | [], b, hb, _ => hb
  | a :: l, b, hb, hstep =>
      foldl_inv l (f b a) (hstep b a (List.mem_cons_self _ _) hb)
        (fun b' a' ha' => hstep b' a' (List.mem_cons_of_mem _ ha'))

/-! ## C1: link-state query semantics -/

theorem isUp_foldl (t : Nat) :
    ∀ (l : List LinkState) (init : Bool),
      l.foldl (isUpStep t) init =
      (((l.filter (fun s => s.time ≤ t)).getLast?).map
        (fun s => decide (s.status = LinkStatus.UP))).getD init := by
  intro l
  induction l with
  | nil => intro init; simp
  | cons s rest ih =>
      intro init
      rw [List.foldl_cons, ih]
      by_cases hst : s.time ≤ t
      · have hstep : isUpStep t init s = decide (s.status = LinkStatus.UP) := by
          cases hss : s.status <;> simp [isUpStep, ge_iff_le, hst, hss]
        rw [hstep]
        have hfil : (s :: rest).filter (fun s => s.time ≤ t) =
            s :: rest.filter (fun s => s.time ≤ t) := by
          simp [List.filter_cons, hst]
        rw [hfil]
        rcases hrest : rest.filter (fun s => s.time ≤ t) with _ | ⟨y, ys⟩
        · rw [hrest]
          simp
        · rw [hrest, List.getLast?_cons_cons]
          have hsome : ((y :: ys).getLast?).isSome := by
            simp [List.getLast?_isSome]
          obtain ⟨z, hz⟩ := Option.isSome_iff_exists.mp hsome
          rw [hz]
          simp
      · have hstep : isUpStep t init s = init := by
          simp [isUpStep, ge_iff_le, hst]
        rw [hstep]
        have hfil : (s :: rest).filter (fun s => s.time ≤ t) =
            rest.filter (fun s => s.time ≤ t) := by
          simp [List.filter_cons, hst]
        rw [hfil]

/-- C1.  For a link whose state list is sorted by non-decreasing tick,
`isUp t` is the status of the most recent record with tick ≤ t — i.e. of the
last record of the time-filtered state list — and `false` when no record has
arrived; and `Query` reports `false` for any pair missing from either level
of the oracle's map. -/
theorem c1_link_query_semantics :
    (∀ (l : Link) (t : Nat),
      List.Chain' (fun a b => a.time ≤ b.time) l.states →
      l.isUp t =
        (((l.states.filter (fun s => s.time ≤ t)).getLast?).map
          (fun s => decide (s.status = LinkStatus.UP))).getD false) ∧
    (∀ (n : NetworkTypology) (q : QueryMsg),
      (alookup n.links q.fromNode = none ∨
        ∃ m, alookup n.links q.fromNode = some m ∧ alookup m q.toNode = none) →
      n.Query q = false) := by
  constructor
  · intro l t _
    exact isUp_foldl t l.states false
  · intro n q h
    rcases h with h | ⟨m, hm, hto⟩
    · simp [NetworkTypology.Query, h]
    · simp [NetworkTypology.Query, hm, hto]

/-- Witness for C1 at the spec's own example: state list
`[(1, DOWN), (3, UP)]` is time-sorted, `isUp 3 = true`, and the empty oracle
answers `false`. -/
theorem c1_link_query_semantics_witness :
    (List.Chain' (fun a b => a.time ≤ b.time)
      [LinkState.mk 1 LinkStatus.DOWN 0 1, LinkState.mk 3 LinkStatus.UP 0 1]) ∧
    (Link.mk 0 1 [LinkState.mk 1 LinkStatus.DOWN 0 1,
        LinkState.mk 3 LinkStatus.UP 0 1]).isUp 3 =
      ((([LinkState.mk 1 LinkStatus.DOWN 0 1,
          LinkState.mk 3 LinkStatus.UP 0 1].filter
            (fun s => s.time ≤ 3)).getLast?).map
        (fun s => decide (s.status = LinkStatus.UP))).getD false ∧
    NetworkTypology.Query ⟨[]⟩ ⟨0, 1, 5⟩ = false := by
  refine ⟨by norm_num [List.chain'_cons], ?_, ?_⟩
  · exact c1_link_query_semantics.1
      (Link.mk 0 1 [LinkState.mk 1 LinkStatus.DOWN 0 1,
        LinkState.mk 3 LinkStatus.UP 0 1]) 3 (by norm_num [List.chain'_cons])
  · exact c1_link_query_semantics.2 ⟨[]⟩ ⟨0, 1, 5⟩ (Or.inl rfl)

/-! ## C9: topology construction requires time-sorted input -/

theorem buildTypology_ok_iff :
    ∀ (input : List LinkState) (c : Nat)
      (links : List (NodeID × List (NodeID × Link))),
      (∃ t, buildTypology input c links = Except.ok t) ↔
        (List.Chain' (fun a b => a.time ≤ b.time) input ∧
          ∀ x ∈ input.head?, c ≤ x.time) := by
  intro input
  induction input with
  | nil =>
      intro c links
      simp [buildTypology]
  | cons ls rest ih =>
      intro c links
      by_cases h : ls.time < c
      · have : ¬ c ≤ ls.time := by omega
        simp [buildTypology, h, List.chain'_cons', this]
      · have hc : c ≤ ls.time := by omega
        simp only [buildTypology, if_neg h, ih, List.chain'_cons', List.head?_cons,
          Option.mem_def, Option.some.injEq]
        constructor
        · rintro ⟨hchain, hhead⟩
          exact ⟨⟨fun b hb => hhead b hb, hchain⟩, fun x hx => hx ▸ hc⟩
        · rintro ⟨⟨hhead, hchain⟩, _⟩
          exact ⟨hchain, fun b hb => hhead b hb⟩

/-- C9.  Constructing the topology from parsed link-state records succeeds
exactly when the records are sorted by non-decreasing tick; otherwise it
returns an error — and the `Except` result carries no topology value in that
case, so no partially-built oracle is observable. -/
theorem c9_topology_monotonicity :
    ∀ (input : List LinkState),
      ((∃ t, NewNetworkTypology input = Except.ok t) ↔
        List.Chain' (fun a b => a.time ≤ b.time) input) ∧
      (¬ List.Chain' (fun a b => a.time ≤ b.time) input →
        ∃ msg, NewNetworkTypology input = Except.error msg) := by
  intro input
  have h := buildTypology_ok_iff input 0 []
  have hz : ∀ x ∈ input.head?, 0 ≤ x.time := fun x _ => Nat.zero_le _
  constructor
  · unfold NewNetworkTypology
    rw [h]
    exact ⟨fun ⟨hc, _⟩ => hc, fun hc => ⟨hc, hz⟩⟩
  · intro hnot
    rcases he : NewNetworkTypology input with msg | t
    · exact ⟨msg, rfl⟩
    · exact absurd ((h.mp ⟨t, he⟩).1) hnot

/-- Witness for C9: the unsorted two-record input `[(20, …), (10, …)]` is
rejected with an error. -/
theorem c9_topology_monotonicity_witness :
    (¬ List.Chain' (fun a b => a.time ≤ b.time)
      [LinkState.mk 20 LinkStatus.UP 0 1, LinkState.mk 10 LinkStatus.DOWN 0 1]) ∧
    ∃ msg, NewNetworkTypology
      [LinkState.mk 20 LinkStatus.UP 0 1, LinkState.mk 10 LinkStatus.DOWN 0 1] =
        Except.error msg :=
  ⟨by norm_num [List.chain'_cons],
   (c9_topology_monotonicity
     [LinkState.mk 20 LinkStatus.UP 0 1, LinkState.mk 10 LinkStatus.DOWN 0 1]).2
     (by norm_num [List.chain'_cons])⟩

/-! ## C2: sequence-based filtering of HELLO and TC messages -/

theorem handleHelloBody_helloSequences {n : Node} {msg : HelloMessage} {n' : Node}
    (h : handleHelloBody n msg = some n') : n'.helloSequences = n.helloSequences := by
  simp only [handleHelloBody] at h
  split at h
  · exact Option.noConfusion h
  · simp only [Option.some.injEq] at h
    rw [← h]

theorem handleHello_processed_ne {n : Node} {msg : HelloMessage}
    (hseq : ∀ q, alookup n.helloSequences msg.src = some q → q < msg.seq) :
    handleHello n msg ≠ some n := by
  intro he
  unfold handleHello at he
  split at he
  · rename_i hnone
    have hseqeq := handleHelloBody_helloSequences he
    have h1 : alookup n.helloSequences msg.src = some msg.seq := by
      conv_lhs => rw [hseqeq]
      rw [alookup_ainsert]
      simp
    rw [hnone] at h1
    exact Option.noConfusion h1
  · rename_i q hsome
    by_cases hle : msg.seq ≤ q
    · exact absurd (hseq q hsome) (not_lt.mpr hle)
    · rw [if_neg hle] at he
      have hseqeq := handleHelloBody_helloSequences he
      have h1 : alookup n.helloSequences msg.src = some msg.seq := by
        conv_lhs => rw [hseqeq]
        rw [alookup_ainsert]
        simp
      rw [hsome] at h1
      have hq : q = msg.seq := Option.some.inj h1
      exact absurd (hseq q hsome) (by rw [hq]; exact lt_irrefl _)

theorem handleHello_ignored_iff (n : Node) (msg : HelloMessage) :
    handleHello n msg = some n ↔
      ∃ q, alookup n.helloSequences msg.src = some q ∧ msg.seq ≤ q := by
  constructor
  · intro h
    by_contra hno
    push_neg at hno
    have hseq : ∀ q, alookup n.helloSequences msg.src = some q → q < msg.seq := by
      intro q hq
      exact lt_of_not_le fun hle => absurd hle (by simpa using hno q hq)
    exact handleHello_processed_ne hseq h
  · rintro ⟨q, hq, hle⟩
    simp only [handleHello, hq, if_pos hle]

theorem tcStale_iff (msg : TCMessage)
    (tt : List (NodeID × List (NodeID × TopologyEntry))) :
    tcStale msg tt = true ↔ TCDropCond tt msg := by
  unfold tcStale TCDropCond
  rcases h : alookup tt msg.src with _ | entries
  · simp [h]
  · simp only [h, Option.some.injEq, List.any_eq_true]
    constructor
    · rintro ⟨dst, hdst, hin⟩
      rcases hd : alookup entries dst with _ | entry
      · rw [hd] at hin
        exact absurd hin (by simp)
      · rw [hd] at hin
        refine ⟨entries, rfl, dst, hdst, entry, hd, ?_⟩
        simpa using hin
    · rintro ⟨entries', hes, dst, hdst, entry, hd, hgt⟩
      rcases hes with rfl
      exact ⟨dst, hdst, by rw [hd]; simpa using hgt⟩

theorem updateTopologyTable_drop (msg : TCMessage)
    (tt : List (NodeID × List (NodeID × TopologyEntry))) (hold : Nat) (id : NodeID)
    (h : TCDropCond tt msg) : updateTopologyTable msg tt hold id = tt := by
  unfold updateTopologyTable
  rw [if_pos ((tcStale_iff msg tt).mpr h)]

theorem tcFold_char (msg : TCMessage) (hold : Nat) (id : NodeID)
    (tt0 : List (NodeID × List (NodeID × TopologyEntry))) :
    ∀ (ms : List NodeID) (tt' : List (NodeID × List (NodeID × TopologyEntry)))
      (es : List (NodeID × TopologyEntry)),
      alookup tt' msg.src = some es →
      (∀ o, o ≠ msg.src → alookup tt' o = alookup tt0 o) →
      ∃ es',
        alookup
          (ms.foldl
            (fun tt dst =>
              if dst = id then tt
              else
                let entries := (alookup tt msg.src).getD []
                ainsert tt msg.src
                  (ainsert entries dst
                    { dst := dst, originator := msg.src, holdUntil := hold,
                      seq := msg.seq }))
            tt') msg.src = some es' ∧
        (∀ o, o ≠ msg.src →
          alookup
            (ms.foldl
              (fun tt dst =>
                if dst = id then tt
                else
                  let entries := (alookup tt msg.src).getD []
                  ainsert tt msg.src
                    (ainsert entries dst
                      { dst := dst, originator := msg.src, holdUntil := hold,
                        seq := msg.seq }))
              tt') o = alookup tt0 o) ∧
        ∀ d, alookup es' d =
          if d ∈ ms ∧ d ≠ id then
            some { dst := d, originator := msg.src, holdUntil := hold, seq := msg.seq }
          else alookup es d := by
  intro ms
  induction ms with
  | nil =>
      intro tt' es hes hother
      exact ⟨es, hes, hother, fun d => by simp⟩
  | cons dst ms' ih =>
      intro tt' es hes hother
      by_cases hd : dst = id
      · simp only [List.foldl_cons, if_pos hd]
        obtain ⟨es', h1, h2, h3⟩ := ih tt' es hes hother
        refine ⟨es', h1, h2, fun d => ?_⟩
        rw [h3 d]
        by_cases hdm : d ∈ ms' ∧ d ≠ id
        · rw [if_pos hdm, if_pos ⟨List.mem_cons_of_mem _ hdm.1, hdm.2⟩]
        · rw [if_neg hdm]
          have : ¬ (d ∈ dst :: ms' ∧ d ≠ id) := by
            rintro ⟨hin, hne⟩
            rcases List.mem_cons.mp hin with rfl | hin'
            · exact hne hd
            · exact hdm ⟨hin', hne⟩
          rw [if_neg this]
      · simp only [List.foldl_cons, if_neg hd]
        set e : TopologyEntry :=
          { dst := dst, originator := msg.src, holdUntil := hold, seq := msg.seq } with he
        have hgetd : (alookup tt' msg.src).getD [] = es := by rw [hes]; rfl
        rw [hgetd]
        have hes' : alookup (ainsert tt' msg.src (ainsert es dst e)) msg.src =
            some (ainsert es dst e) := by
          rw [alookup_ainsert]
          simp
        have hother' : ∀ o, o ≠ msg.src →
            alookup (ainsert tt' msg.src (ainsert es dst e)) o = alookup tt0 o := by
          intro o ho
          rw [alookup_ainsert, if_neg (fun hc => ho hc.symm)]
          exact hother o ho
        obtain ⟨es', h1, h2, h3⟩ := ih _ _ hes' hother'
        refine ⟨es', h1, h2, fun d => ?_⟩
        rw [h3 d]
        by_cases hdm : d ∈ ms' ∧ d ≠ id
        · rw [if_pos hdm, if_pos ⟨List.mem_cons_of_mem _ hdm.1, hdm.2⟩]
        · rw [if_neg hdm, alookup_ainsert]
          by_cases hdd : dst = d
          · subst hdd
            have hcond : dst ∈ dst :: ms' ∧ dst ≠ id :=
              ⟨List.mem_cons_self _ _, hd⟩
            rw [if_pos rfl, if_pos hcond]
          · rw [if_neg hdd]
            have : ¬ (d ∈ dst :: ms' ∧ d ≠ id) := by
              rintro ⟨hin, hne⟩
              rcases List.mem_cons.mp hin with rfl | hin'
              · exact hdd rfl
              · exact hdm ⟨hin', hne⟩
            rw [if_neg this]

theorem updateTopologyTable_replace (msg : TCMessage)
    (tt : List (NodeID × List (NodeID × TopologyEntry))) (hold : Nat) (id : NodeID)
    (h : ¬ TCDropCond tt msg) :
    (∀ o, o ≠ msg.src → alookup (updateTopologyTable msg tt hold id) o = alookup tt o) ∧
    ∃ es, alookup (updateTopologyTable msg tt hold id) msg.src = some es ∧
      ∀ d, alookup es d =
        if d ∈ msg.ms ∧ d ≠ id then
          some { dst := d, originator := msg.src, holdUntil := hold, seq := msg.seq }
        else none := by
  have hstale : ¬ tcStale msg tt = true := fun hs => h ((tcStale_iff msg tt).mp hs)
  unfold updateTopologyTable
  rw [if_neg hstale]
  have hcl : alookup (ainsert tt msg.src []) msg.src = some [] := by
    rw [alookup_ainsert]; simp
  have hclo : ∀ o, o ≠ msg.src → alookup (ainsert tt msg.src []) o = alookup tt o := by
    intro o ho
    rw [alookup_ainsert, if_neg (fun hc => ho hc.symm)]
  obtain ⟨es', h1, h2, h3⟩ := tcFold_char msg hold id tt msg.ms _ _ hcl hclo
  refine ⟨h2, es', h1, fun d => ?_⟩
  rw [h3 d]
  by_cases hdm : d ∈ msg.ms ∧ d ≠ id
  · rw [if_pos hdm, if_pos hdm]
  · rw [if_neg hdm, if_neg hdm]
    rfl

/-- C2 (amended).  A received HELLO is ignored — the handler returns the node
state unchanged — iff a sequence number is recorded for its sender and the
message's sequence is ≤ that record.  A received TC leaves the topology table
untouched iff some destination it lists has a recorded entry from the same
originator with a strictly greater sequence (`TCDropCond`); otherwise the
originator's slot is replaced wholesale by entries for the listed
destinations (own id excluded), other originators' slots unchanged.  The
original claim's TC condition — "ignored iff its sequence is < the last
sequence observed from the originator" — is refuted by
`c2_sequence_filtering_counterexample`. -/
theorem c2_sequence_filtering :
    (∀ (n : Node) (msg : HelloMessage),
      handleHello n msg = some n ↔
        ∃ q, alookup n.helloSequences msg.src = some q ∧ msg.seq ≤ q) ∧
    (∀ (msg : TCMessage) (tt : List (NodeID × List (NodeID × TopologyEntry)))
        (hold : Nat) (id : NodeID),
      (TCDropCond tt msg → updateTopologyTable msg tt hold id = tt) ∧
      (¬ TCDropCond tt msg →
        (∀ o, o ≠ msg.src →
          alookup (updateTopologyTable msg tt hold id) o = alookup tt o) ∧
        ∃ es, alookup (updateTopologyTable msg tt hold id) msg.src = some es ∧
          ∀ d, alookup es d =
            if d ∈ msg.ms ∧ d ≠ id then
              some { dst := d, originator := msg.src, holdUntil := hold,
                     seq := msg.seq }
            else none)) :=
  ⟨handleHello_ignored_iff,
   fun msg tt hold id =>
     ⟨updateTopologyTable_drop msg tt hold id,
      updateTopologyTable_replace msg tt hold id⟩⟩

/-- Witness for C2: with recorded entry (originator 2, destination 3,
sequence 5), a TC from 2 with sequence 2 listing destination 3 is dropped,
while a TC from 2 with sequence 7 listing destination 4 replaces the slot. -/
theorem c2_sequence_filtering_witness :
    TCDropCond [(2, [(3, ⟨3, 2, 40, 5⟩)])] ⟨2, 1, 2, [3]⟩ ∧
    updateTopologyTable ⟨2, 1, 2, [3]⟩ [(2, [(3, ⟨3, 2, 40, 5⟩)])] 40 0 =
      [(2, [(3, ⟨3, 2, 40, 5⟩)])] ∧
    ¬ TCDropCond [(2, [(3, ⟨3, 2, 40, 5⟩)])] ⟨2, 1, 7, [4]⟩ ∧
    ∃ es,
      alookup (updateTopologyTable ⟨2, 1, 7, [4]⟩ [(2, [(3, ⟨3, 2, 40, 5⟩)])] 40 0)
        2 = some es ∧
      ∀ d, alookup es d =
        if d ∈ [4] ∧ d ≠ 0 then some ⟨d, 2, 40, 7⟩ else none := by
  have hdrop : TCDropCond [(2, [(3, ⟨3, 2, 40, 5⟩)])] ⟨2, 1, 2, [3]⟩ :=
    ⟨[(3, ⟨3, 2, 40, 5⟩)], rfl, 3, by decide, ⟨3, 2, 40, 5⟩, rfl, by decide⟩
  have hno : ¬ TCDropCond [(2, [(3, ⟨3, 2, 40, 5⟩)])] ⟨2, 1, 7, [4]⟩ := by
    rintro ⟨es, hes, d, hd, e, he, hgt⟩
    have hes' : es = [(3, (⟨3, 2, 40, 5⟩ : TopologyEntry))] :=
      (Option.some.inj hes).symm
    subst hes'
    have hd' : d = 4 := by simpa using hd
    subst hd'
    simp [alookup] at he
  refine ⟨hdrop, (c2_sequence_filtering.2 ⟨2, 1, 2, [3]⟩ _ 40 0).1 hdrop, hno,
    ((c2_sequence_filtering.2 ⟨2, 1, 7, [4]⟩ _ 40 0).2 hno).2⟩

/-- Counterexample refuting C2's TC clause as stated: the topology table
records only (originator 2, destination 3) with sequence 5; a TC from 2 with
sequence 2 < 5 listing destination 4 is NOT ignored — the handler replaces
originator 2's slot with the new destination — because the staleness check
only inspects destinations listed in the message. -/
theorem c2_sequence_filtering_counterexample :
    alookup ([(2, [(3, ⟨3, 2, 40, 5⟩)])] :
        List (NodeID × List (NodeID × TopologyEntry))) 2 =
      some [(3, ⟨3, 2, 40, 5⟩)] ∧
    (∀ kv ∈ [((3 : NodeID), (⟨3, 2, 40, 5⟩ : TopologyEntry))],
      (2 : Int) < kv.2.seq) ∧
    updateTopologyTable ⟨2, 1, 2, [4]⟩ [(2, [(3, ⟨3, 2, 40, 5⟩)])] 40 0 =
      [(2, [(4, ⟨4, 2, 40, 2⟩)])] ∧
    updateTopologyTable ⟨2, 1, 2, [4]⟩ [(2, [(3, ⟨3, 2, 40, 5⟩)])] 40 0 ≠
      [(2, [(3, ⟨3, 2, 40, 5⟩)])] := by
  refine ⟨rfl, by decide, by decide, by decide⟩

/-! ## C7: TC forwarding rule -/

theorem msSet_fwd_check (x : NodeID) :
    ∀ (l : List NodeID) (b : Bool),
      (l.foldl (fun acc id => if id = x then true else acc) b = true ↔
        (b = true ∨ x ∈ l)) := by
  intro l
  induction l with
  | nil => intro b; simp
  | cons y rest ih =>
      intro b
      rw [List.foldl_cons, ih]
      by_cases hy : y = x
      · subst hy
        simp
      · have : ¬ x = y := fun he => hy he.symm
        simp [hy, this]

/-- C7.  A TC whose originator is the receiving node is dropped with no state
change and no re-emission.  Otherwise the node re-emits the TC iff the
message's `fromnbr` is in the node's MPR-selector set, and the re-emitted
message carries `fromnbr` rewritten to the node's own id. -/
theorem c7_tc_forwarding :
    ∀ (n : Node) (msg : TCMessage),
      (msg.src = n.id → handleTC n msg = (n, none)) ∧
      (msg.src ≠ n.id →
        (((handleTC n msg).2 = some { msg with fromnbr := n.id }) ↔
          msg.fromnbr ∈ n.msSet) ∧
        (((handleTC n msg).2 = none) ↔ msg.fromnbr ∉ n.msSet)) := by
  intro n msg
  constructor
  · intro h
    unfold handleTC
    rw [if_pos h]
  · intro h
    unfold handleTC
    rw [if_neg h]
    simp only []
    by_cases hf : msg.fromnbr ∈ n.msSet
    · have hb : n.msSet.foldl (fun acc id => if id = msg.fromnbr then true else acc)
          false = true :=
        (msSet_fwd_check msg.fromnbr n.msSet false).mpr (Or.inr hf)
      rw [hb]
      simp [hf]
    · have hb : n.msSet.foldl (fun acc id => if id = msg.fromnbr then true else acc)
          false = false := by
        rcases hb' : n.msSet.foldl (fun acc id => if id = msg.fromnbr then true else acc)
            false with _ | _
        · rfl
        · rcases (msSet_fwd_check msg.fromnbr n.msSet false).mp hb' with h' | h'
          · exact absurd h' (by simp)
          · exact absurd h' hf
      rw [hb]
      simp [hf]

/-- Witness for C7: a node with msSet = [1] drops its own TC, and forwards a
TC from neighbor 1 with `fromnbr` rewritten. -/
theorem c7_tc_forwarding_witness :
    ((⟨0, 1, 0, []⟩ : TCMessage).src = ({ initNode 0 with msSet := [1] } : Node).id ∧
      handleTC { initNode 0 with msSet := [1] } ⟨0, 1, 0, []⟩ =
        ({ initNode 0 with msSet := [1] }, none)) ∧
    ((⟨2, 1, 0, []⟩ : TCMessage).src ≠ ({ initNode 0 with msSet := [1] } : Node).id ∧
      (((handleTC { initNode 0 with msSet := [1] } ⟨2, 1, 0, []⟩).2 =
          some { (⟨2, 1, 0, []⟩ : TCMessage) with fromnbr := 0 }) ↔
        (⟨2, 1, 0, []⟩ : TCMessage).fromnbr ∈
          ({ initNode 0 with msSet := [1] } : Node).msSet)) :=
  ⟨⟨rfl, (c7_tc_forwarding { initNode 0 with msSet := [1] } ⟨0, 1, 0, []⟩).1 rfl⟩,
   ⟨by decide,
    ((c7_tc_forwarding { initNode 0 with msSet := [1] } ⟨2, 1, 0, []⟩).2 (by decide)).1⟩⟩

/-! ## C8: log routing of sent DATA messages -/

/-- C8 (code bug).  At a node with a route to the destination, a successful
`sendData` emits the rewritten message but appends the log line to the
node's IN log (`./log/<N>_in.txt`), not to the out log — `node.go` line 204
writes to `n.inputLog` although the field documentation (and the spec) say
sent messages go to the out log.  The out log stays empty here. -/
theorem c8_senddata_logs_to_in_log :
    (sendData { initNode 1 with routingTable := [(4, ⟨4, 3, 2⟩)] }
        ⟨1, 4, 0, 0, "hi"⟩).2.2 = true ∧
    (sendData { initNode 1 with routingTable := [(4, ⟨4, 3, 2⟩)] }
        ⟨1, 4, 0, 0, "hi"⟩).2.1 = some ⟨1, 4, 3, 1, "hi"⟩ ∧
    (sendData { initNode 1 with routingTable := [(4, ⟨4, 3, 2⟩)] }
        ⟨1, 4, 0, 0, "hi"⟩).1.outLog = [] ∧
    (sendData { initNode 1 with routingTable := [(4, ⟨4, 3, 2⟩)] }
        ⟨1, 4, 0, 0, "hi"⟩).1.inLog = [LogLine.data ⟨1, 4, 3, 1, "hi"⟩] :=
  ⟨rfl, rfl, rfl, rfl⟩

/-! ## C4/C5: MPR selection -/

theorem candStep_mono (oneHop : List (NodeID × OneHopNeighborEntry))
    (acc : List CandInfo × List NodeID) (kv : NodeID × List NodeID) :
    (∀ nd ∈ acc.1, nd ∈ (candStep oneHop acc kv).1) ∧
    (∀ x ∈ acc.2, x ∈ (candStep oneHop acc kv).2) := by
  unfold candStep
  by_cases h : ((alookup oneHop kv.1).getD zeroOneHopEntry).state =
      NeighborState.Unidirectional
  · rw [if_pos h]
    exact ⟨fun _ h => h, fun _ h => h⟩
  · rw [if_neg h]
    exact ⟨fun nd hnd => List.mem_append_left _ hnd,
           fun x hx => (mem_foldl_sinsert _ _ _).mpr (Or.inl hx)⟩

theorem candFold_mono (oneHop : List (NodeID × OneHopNeighborEntry)) :
    ∀ (l : List (NodeID × List NodeID)) (acc : List CandInfo × List NodeID),
      (∀ nd ∈ acc.1, nd ∈ (l.foldl (candStep oneHop) acc).1) ∧
      (∀ x ∈ acc.2, x ∈ (l.foldl (candStep oneHop) acc).2) := by
  intro l
  induction l with
  | nil => exact fun acc => ⟨fun _ h => h, fun _ h => h⟩
  | cons kv rest ih =>
      intro acc
      rw [List.foldl_cons]
      constructor
      · intro nd hnd
        exact (ih (candStep oneHop acc kv)).1 nd ((candStep_mono oneHop acc kv).1 nd hnd)
      · intro x hx
        exact (ih (candStep oneHop acc kv)).2 x ((candStep_mono oneHop acc kv).2 x hx)

theorem candFold_cover (oneHop : List (NodeID × OneHopNeighborEntry))
    (twoHop : List (NodeID × List NodeID)) (hnd : (akeys twoHop).Nodup) :
    ∀ (l : List (NodeID × List NodeID)), (∀ kv ∈ l, kv ∈ twoHop) →
      ∀ (acc : List CandInfo × List NodeID),
        (∀ x ∈ acc.2, ∃ nd ∈ acc.1, x ∈ (alookup twoHop nd.id).getD []) →
        (∀ nd ∈ acc.1, ∃ kv ∈ twoHop, nd.id = kv.1) →
        (∀ x ∈ (l.foldl (candStep oneHop) acc).2,
          ∃ nd ∈ (l.foldl (candStep oneHop) acc).1,
            x ∈ (alookup twoHop nd.id).getD []) ∧
        (∀ nd ∈ (l.foldl (candStep oneHop) acc).1, ∃ kv ∈ twoHop, nd.id = kv.1) := by
  intro l
  induction l with
  | nil =>
      intro _ acc hcov hprov
      exact ⟨hcov, hprov⟩
  | cons kv rest ih =>
      intro hsub acc hcov hprov
      rw [List.foldl_cons]
      have hkv : kv ∈ twoHop := hsub kv (List.mem_cons_self _ _)
      have hsub' : ∀ kv' ∈ rest, kv' ∈ twoHop := fun kv' h =>
        hsub kv' (List.mem_cons_of_mem _ h)
      refine ih hsub' (candStep oneHop acc kv) ?_ ?_
      · intro x hx
        unfold candStep at hx ⊢
        by_cases h : ((alookup oneHop kv.1).getD zeroOneHopEntry).state =
            NeighborState.Unidirectional
        · rw [if_pos h] at hx ⊢
          exact hcov x hx
        · rw [if_neg h] at hx ⊢
          rcases (mem_foldl_sinsert _ _ _).mp hx with hx' | hx'
          · obtain ⟨nd, hnd', hc⟩ := hcov x hx'
            exact ⟨nd, List.mem_append_left _ hnd', hc⟩
          · refine ⟨{ id := kv.1, reaches := kv.2.length },
              List.mem_append_right _ (List.mem_singleton_self _), ?_⟩
            have : alookup twoHop kv.1 = some kv.2 := by
              obtain ⟨k, v⟩ := kv
              exact alookup_of_mem_nodup hnd hkv
            rw [this]
            exact hx'
      · intro nd hnd'
        unfold candStep at hnd'
        by_cases h : ((alookup oneHop kv.1).getD zeroOneHopEntry).state =
            NeighborState.Unidirectional
        · rw [if_pos h] at hnd'
          exact hprov nd hnd'
        · rw [if_neg h] at hnd'
          rcases List.mem_append.mp hnd' with h' | h'
          · exact hprov nd h'
          · rcases List.mem_singleton.mp h' with rfl
            exact ⟨kv, hkv, rfl⟩

theorem candFold_complete (oneHop : List (NodeID × OneHopNeighborEntry))
    (twoHop : List (NodeID × List NodeID)) :
    ∀ (l : List (NodeID × List NodeID)) (acc : List CandInfo × List NodeID)
      (kv : NodeID × List NodeID), kv ∈ l →
      ((alookup oneHop kv.1).getD zeroOneHopEntry).state ≠
        NeighborState.Unidirectional →
      (∃ nd ∈ (l.foldl (candStep oneHop) acc).1, nd.id = kv.1) ∧
      ∀ x ∈ kv.2, x ∈ (l.foldl (candStep oneHop) acc).2 := by
  intro l
  induction l with
  | nil =>
      intro acc kv h
      exact absurd h (List.not_mem_nil _)
  | cons kv₀ rest ih =>
      intro acc kv hmem hstate
      rw [List.foldl_cons]
      rcases List.mem_cons.mp hmem with rfl | hmem'
      · have hstep : candStep oneHop acc kv =
            (acc.1 ++ [{ id := kv.1, reaches := kv.2.length }],
             kv.2.foldl sinsert acc.2) := by
          unfold candStep
          rw [if_neg hstate]
        constructor
        · refine ⟨{ id := kv.1, reaches := kv.2.length }, ?_, rfl⟩
          apply (candFold_mono oneHop rest (candStep oneHop acc kv)).1
          rw [hstep]
          exact List.mem_append_right _ (List.mem_singleton_self _)
        · intro x hx
          apply (candFold_mono oneHop rest (candStep oneHop acc kv)).2
          rw [hstep]
          exact (mem_foldl_sinsert _ _ _).mpr (Or.inr hx)
      · exact ih (candStep oneHop acc kv₀) kv hmem' hstate

theorem mprLoop_total (twoHop : List (NodeID × List NodeID)) :
    ∀ (nodes : List CandInfo) (remaining : List NodeID),
      (∀ x ∈ remaining, ∃ nd ∈ nodes, x ∈ (alookup twoHop nd.id).getD []) →
      ∃ ms, mprLoop twoHop nodes remaining = some ms ∧
        ms.length ≤ nodes.length ∧
        (∀ m ∈ ms, ∃ nd ∈ nodes, nd.id = m) ∧
        (∀ x ∈ remaining, ∃ m ∈ ms, x ∈ (alookup twoHop m).getD []) := by
  intro nodes
  induction nodes with
  | nil =>
      intro remaining hpre
      rcases remaining with _ | ⟨x, rem⟩
      · exact ⟨[], rfl, le_refl _, by simp, by simp⟩
      · obtain ⟨nd, hnd, _⟩ := hpre x (List.mem_cons_self _ _)
        exact absurd hnd (List.not_mem_nil _)
  | cons n rest ih =>
      intro remaining hpre
      rcases remaining with _ | ⟨x, rem⟩
      · exact ⟨[], rfl, Nat.zero_le _, by simp, by simp⟩
      · have hpre' : ∀ y ∈ (x :: rem).filter
            (fun k => k ∉ (alookup twoHop n.id).getD []),
            ∃ nd ∈ rest, y ∈ (alookup twoHop nd.id).getD [] := by
          intro y hy
          rw [List.mem_filter] at hy
          obtain ⟨hy₁, hy₂⟩ := hy
          have hy₂' : y ∉ (alookup twoHop n.id).getD [] := by simpa using hy₂
          obtain ⟨nd, hnd, hc⟩ := hpre y hy₁
          rcases List.mem_cons.mp hnd with rfl | hnd'
          · exact absurd hc hy₂'
          · exact ⟨nd, hnd', hc⟩
        obtain ⟨ms, hms, hlen, hprov, hcov⟩ := ih _ hpre'
        refine ⟨n.id :: ms, ?_, ?_, ?_, ?_⟩
        · simp only [mprLoop]
          rw [hms]
        · simpa using Nat.succ_le_succ hlen
        · intro m hm
          rcases List.mem_cons.mp hm with rfl | hm'
          · exact ⟨n, List.mem_cons_self _ _, rfl⟩
          · obtain ⟨nd, hnd, he⟩ := hprov m hm'
            exact ⟨nd, List.mem_cons_of_mem _ hnd, he⟩
        · intro x' hx'
          by_cases hr : x' ∈ (alookup twoHop n.id).getD []
          · exact ⟨n.id, List.mem_cons_self _ _, hr⟩
          · have hx'' : x' ∈ (x :: rem).filter
                (fun k => k ∉ (alookup twoHop n.id).getD []) := by
              rw [List.mem_filter]
              exact ⟨hx', by simpa using hr⟩
            obtain ⟨m, hm, hc⟩ := hcov x' hx''
            exact ⟨m, List.mem_cons_of_mem _ hm, hc⟩

theorem alookup_updateMPRStates (oneHop : List (NodeID × OneHopNeighborEntry))
    (mprs : List NodeID) (k : NodeID) :
    alookup (updateMPRStates oneHop mprs) k =
      (alookup oneHop k).map
        (fun e =>
          if k ∈ mprs then { e with state := NeighborState.MPR }
          else if e.state = NeighborState.MPR then
            { e with state := NeighborState.Bidirectional }
          else e) := by
  induction oneHop with
  | nil => simp [updateMPRStates, alookup]
  | cons kv rest ih =>
      obtain ⟨k₀, v₀⟩ := kv
      simp only [updateMPRStates] at ih ⊢
      simp only [List.map_cons]
      have hhead :
          (if k₀ ∈ mprs then
            (k₀, { v₀ with state := NeighborState.MPR })
          else if v₀.state = NeighborState.MPR then
            (k₀, { v₀ with state := NeighborState.Bidirectional })
          else (k₀, v₀)) =
          (k₀,
            if k₀ ∈ mprs then { v₀ with state := NeighborState.MPR }
            else if v₀.state = NeighborState.MPR then
              { v₀ with state := NeighborState.Bidirectional }
            else v₀) := by
        by_cases hm : k₀ ∈ mprs
        · rw [if_pos hm, if_pos hm]
        · rw [if_neg hm, if_neg hm]
          by_cases hs : v₀.state = NeighborState.MPR
          · rw [if_pos hs, if_pos hs]
          · rw [if_neg hs, if_neg hs]
      rw [hhead]
      by_cases hk : k₀ = k
      · subst hk
        simp [alookup]
      · simp only [alookup, if_neg hk]
        exact ih

/-- C5.  `calculateMPRs` terminates for every pair of tables and the greedy
loop never pops from an empty candidate slice (the `none` of the embedding):
the uncovered set is always contained in the union of the two-hop sets of
the not-yet-popped candidates, so the loop returns after at most
|candidates| pops.  The `Nodup` hypothesis is the representation invariant
of a Go map embedded as an association list (a map cannot hold a key
twice). -/
theorem c5_calculateMPRs_terminates :
    (∀ (oneHopNeighbors : List (NodeID × OneHopNeighborEntry))
        (twoHopNeighbors : List (NodeID × List NodeID)),
      (akeys twoHopNeighbors).Nodup →
      ∃ result, calculateMPRs oneHopNeighbors twoHopNeighbors = some result) ∧
    (∀ (twoHopNeighbors : List (NodeID × List NodeID)) (nodes : List CandInfo)
        (remaining : List NodeID),
      (∀ x ∈ remaining, ∃ nd ∈ nodes, x ∈ (alookup twoHopNeighbors nd.id).getD []) →
      ∃ ms, mprLoop twoHopNeighbors nodes remaining = some ms ∧
        ms.length ≤ nodes.length) := by
  constructor
  · intro oneHop twoHop hnd
    have hcov := (candFold_cover oneHop twoHop hnd twoHop (fun _ h => h) ([], [])
      (by simp) (by simp)).1
    have hpre : ∀ x ∈ (twoHop.foldl (candStep oneHop) ([], [])).2,
        ∃ nd ∈ (twoHop.foldl (candStep oneHop) ([], [])).1.insertionSort
          (fun a b => a.reaches ≥ b.reaches),
          x ∈ (alookup twoHop nd.id).getD [] := by
      intro x hx
      obtain ⟨nd, hnd', hc⟩ := hcov x hx
      exact ⟨nd, (List.perm_insertionSort _ _).mem_iff.mpr hnd', hc⟩
    obtain ⟨ms, hms, _⟩ := mprLoop_total twoHop _ _ hpre
    refine ⟨updateMPRStates oneHop ms, ?_⟩
    simp only [calculateMPRs, buildCandidates]
    rw [hms]
  · intro twoHop nodes remaining hpre
    obtain ⟨ms, hms, hlen, _⟩ := mprLoop_total twoHop nodes remaining hpre
    exact ⟨ms, hms, hlen⟩

/-- Witness for C5 at concrete tables and a concrete loop state. -/
theorem c5_calculateMPRs_terminates_witness :
    (akeys [((6 : NodeID), [9]), (5, [9])]).Nodup ∧
    (∃ result, calculateMPRs [(5, ⟨5, NeighborState.Bidirectional, 20⟩)]
      [(6, [9]), (5, [9])] = some result) ∧
    (∀ x ∈ [9], ∃ nd ∈ [CandInfo.mk 5 1],
      x ∈ (alookup [((5 : NodeID), [9])] nd.id).getD []) ∧
    ∃ ms, mprLoop [((5 : NodeID), [9])] [CandInfo.mk 5 1] [9] = some ms ∧
      ms.length ≤ 1 :=
  ⟨by decide,
   c5_calculateMPRs_terminates.1 [(5, ⟨5, NeighborState.Bidirectional, 20⟩)]
     [(6, [9]), (5, [9])] (by decide),
   by decide,
   c5_calculateMPRs_terminates.2 [((5 : NodeID), [9])] [CandInfo.mk 5 1] [9]
     (by decide)⟩

/-- C4 (amended).  When every two-hop key is also a one-hop key — as holds
in every reachable node state, see `c10_twohop_keys_subset_onehop` — every
two-hop destination reachable via a one-hop neighbor whose state is not
`Unidirectional` is reachable via some neighbor whose resulting state is
`MPR`.  Without that hypothesis the claim fails: a two-hop key absent from
the one-hop table reads as a zero-value (`Bidirectional`) entry and can be
selected in place of a real neighbor (`c4_mpr_coverage_counterexample`). -/
theorem c4_mpr_coverage :
    ∀ (oneHopNeighbors : List (NodeID × OneHopNeighborEntry))
      (twoHopNeighbors : List (NodeID × List NodeID)),
      (akeys twoHopNeighbors).Nodup →
      (∀ k ∈ akeys twoHopNeighbors, k ∈ akeys oneHopNeighbors) →
      ∀ result, calculateMPRs oneHopNeighbors twoHopNeighbors = some result →
        ∀ nbr entry d, alookup oneHopNeighbors nbr = some entry →
          entry.state ≠ NeighborState.Unidirectional →
          d ∈ (alookup twoHopNeighbors nbr).getD [] →
          ∃ m entry', alookup result m = some entry' ∧
            entry'.state = NeighborState.MPR ∧
            d ∈ (alookup twoHopNeighbors m).getD [] := by
  intro oneHop twoHop hnd hsub result hres nbr entry d hnbr hstate hd
  rcases hth : alookup twoHop nbr with _ | set
  · rw [hth] at hd
    simp at hd
  · rw [hth] at hd
    simp only [Option.getD_some] at hd
    have hkv : (nbr, set) ∈ twoHop := alookup_mem hth
    have hstate' : ((alookup oneHop nbr).getD zeroOneHopEntry).state ≠
        NeighborState.Unidirectional := by
      rw [hnbr]
      exact hstate
    have hcomp := candFold_complete oneHop twoHop twoHop ([], []) (nbr, set) hkv hstate'
    have hdU : d ∈ (twoHop.foldl (candStep oneHop) ([], [])).2 := hcomp.2 d hd
    have hcov := candFold_cover oneHop twoHop hnd twoHop (fun _ h => h) ([], [])
      (by simp) (by simp)
    have hpre : ∀ x ∈ (twoHop.foldl (candStep oneHop) ([], [])).2,
        ∃ nd ∈ (twoHop.foldl (candStep oneHop) ([], [])).1.insertionSort
          (fun a b => a.reaches ≥ b.reaches),
          x ∈ (alookup twoHop nd.id).getD [] := by
      intro x hx
      obtain ⟨nd, hnd', hc⟩ := hcov.1 x hx
      exact ⟨nd, (List.perm_insertionSort _ _).mem_iff.mpr hnd', hc⟩
    obtain ⟨ms, hms, hlen, hprov, hcovms⟩ := mprLoop_total twoHop _ _ hpre
    have hres' : result = updateMPRStates oneHop ms := by
      simp only [calculateMPRs, buildCandidates] at hres
      rw [hms] at hres
      exact (Option.some.inj hres).symm
    obtain ⟨m, hmms, hdc⟩ := hcovms d hdU
    obtain ⟨nd, hndmem, hid⟩ := hprov m hmms
    have hndmem' : nd ∈ (twoHop.foldl (candStep oneHop) ([], [])).1 :=
      (List.perm_insertionSort _ _).mem_iff.mp hndmem
    obtain ⟨kv, hkv', hkid⟩ := hcov.2 nd hndmem'
    have hmk : m ∈ akeys twoHop := by
      rw [← hid, hkid]
      exact List.mem_map.mpr ⟨kv, hkv', rfl⟩
    obtain ⟨e, he⟩ := (mem_akeys oneHop m).mp (hsub m hmk)
    refine ⟨m, { e with state := NeighborState.MPR }, ?_, rfl, hdc⟩
    rw [hres', alookup_updateMPRStates, he, Option.map_some']
    rw [if_pos hmms]

/-- Counterexample refuting C4 as stated (`ClaimedMPRCoverage`): with
oneHop = {5 ↦ Bidirectional} and twoHop = {6 ↦ {9}, 5 ↦ {9}}, the key 6 —
absent from the one-hop table — reads as a zero-value (`Bidirectional`)
entry, becomes a candidate, and is greedily selected to cover destination 9;
node 5 stays `Bidirectional`, so 9 is reachable via a bidirectional one-hop
neighbor but via no neighbor whose resulting state is `MPR`. -/
theorem c4_mpr_coverage_counterexample :
    ¬ ClaimedMPRCoverage [(5, ⟨5, NeighborState.Bidirectional, 20⟩)]
      [(6, [9]), (5, [9])] := by
  intro h
  obtain ⟨m, entry', hm, hstate, _⟩ :=
    h [(5, ⟨5, NeighborState.Bidirectional, 20⟩)] (by decide) 5
      ⟨5, NeighborState.Bidirectional, 20⟩ 9 rfl (by decide) (by decide)
  have hmem := alookup_mem hm
  have hme : m = 5 ∧ entry' = ⟨5, NeighborState.Bidirectional, 20⟩ := by
    simpa using hmem
  obtain ⟨rfl, rfl⟩ := hme
  exact absurd hstate (by decide)

/-- Witness for C4 at tables satisfying the key-subset hypothesis. -/
theorem c4_mpr_coverage_witness :
    (akeys [((5 : NodeID), [9])]).Nodup ∧
    (∀ k ∈ akeys [((5 : NodeID), [9])],
      k ∈ akeys [(5, OneHopNeighborEntry.mk 5 NeighborState.Bidirectional 20)]) ∧
    calculateMPRs [(5, ⟨5, NeighborState.Bidirectional, 20⟩)] [(5, [9])] =
      some [(5, ⟨5, NeighborState.MPR, 20⟩)] ∧
    (⟨5, NeighborState.Bidirectional, 20⟩ : OneHopNeighborEntry).state ≠
      NeighborState.Unidirectional ∧
    ∃ m entry',
      alookup [(5, (⟨5, NeighborState.MPR, 20⟩ : OneHopNeighborEntry))] m =
        some entry' ∧
      entry'.state = NeighborState.MPR ∧
      9 ∈ (alookup [((5 : NodeID), [9])] m).getD [] :=
  ⟨by decide, by decide, by decide, by decide,
   c4_mpr_coverage [(5, ⟨5, NeighborState.Bidirectional, 20⟩)] [(5, [9])]
     (by decide) (by decide) [(5, ⟨5, NeighborState.MPR, 20⟩)] (by decide) 5
     ⟨5, NeighborState.Bidirectional, 20⟩ 9 rfl (by decide) (by decide)⟩

/-! ## C3: routing-table soundness -/

theorem alookup_ainsert_submap {α : Type} {rt : List (NodeID × α)} {k : NodeID}
    {v : α} (hnone : alookup rt k = none) :
    ∀ k' v', alookup rt k' = some v' → alookup (ainsert rt k v) k' = some v' := by
  intro k' v' h
  rw [alookup_ainsert]
  by_cases he : k = k'
  · subst he
    rw [hnone] at h
    exact Option.noConfusion h
  · rw [if_neg he]
    exact h

theorem routeSound_mono (oneHop : List (NodeID × OneHopNeighborEntry))
    (twoHop : List (NodeID × List NodeID))
    (topo : List (NodeID × List (NodeID × TopologyEntry)))
    {rt rt' : List (NodeID × RoutingEntry)}
    (hsub : ∀ k v, alookup rt k = some v → alookup rt' k = some v)
    {kv : NodeID × RoutingEntry} (h : RouteSound oneHop twoHop topo rt kv) :
    RouteSound oneHop twoHop topo rt' kv := by
  obtain ⟨hdst, hcl⟩ := h
  refine ⟨hdst, ?_⟩
  rcases hcl with h1 | h2 | h3
  · exact Or.inl h1
  · exact Or.inr (Or.inl h2)
  · obtain ⟨hlt, O, r, hr, hd, hn, htp⟩ := h3
    exact Or.inr (Or.inr ⟨hlt, O, r, hsub O r hr, hd, hn, htp⟩)

theorem routePhase1_entries (oneHop : List (NodeID × OneHopNeighborEntry)) :
    ∀ (l : List (NodeID × OneHopNeighborEntry)) (rt : List (NodeID × RoutingEntry)),
      (∀ kw ∈ l, kw ∈ oneHop) →
      (∀ kv ∈ rt, kv.2 = { dst := kv.1, nextHop := kv.1, distance := 1 } ∧
        ∃ kw ∈ oneHop, kw.2.neighborID = kv.1 ∧
          (kw.2.state = NeighborState.Bidirectional ∨ kw.2.state = NeighborState.MPR)) →
      ∀ kv ∈ l.foldl route1Step rt,
        kv.2 = { dst := kv.1, nextHop := kv.1, distance := 1 } ∧
        ∃ kw ∈ oneHop, kw.2.neighborID = kv.1 ∧
          (kw.2.state = NeighborState.Bidirectional ∨ kw.2.state = NeighborState.MPR) := by
  intro l
  induction l with
  | nil => exact fun rt _ hP => hP
  | cons kw₀ rest ih =>
      intro rt hsub hP
      rw [List.foldl_cons]
      refine ih _ (fun kw h => hsub kw (List.mem_cons_of_mem _ h)) ?_
      intro kv hkv
      unfold route1Step at hkv
      by_cases hs : kw₀.2.state = NeighborState.Bidirectional ∨
          kw₀.2.state = NeighborState.MPR
      · rw [if_pos hs] at hkv
        rcases mem_ainsert hkv with rfl | hkv'
        · exact ⟨rfl, kw₀, hsub kw₀ (List.mem_cons_self _ _), rfl, hs⟩
        · exact hP kv hkv'
      · rw [if_neg hs] at hkv
        exact hP kv hkv

theorem routePhase1_sound (oneHop : List (NodeID × OneHopNeighborEntry))
    (twoHop : List (NodeID × List NodeID))
    (topo : List (NodeID × List (NodeID × TopologyEntry))) :
    SoundTable oneHop twoHop topo (routePhase1 oneHop) := by
  intro kv hkv
  obtain ⟨hval, kw, hkw, hnid, hs⟩ :=
    routePhase1_entries oneHop oneHop [] (fun _ h => h) (by simp) kv hkv
  refine ⟨by rw [hval], Or.inl ?_⟩
  rw [hval]
  exact ⟨rfl, rfl, kw, hkw, hnid, hs⟩

theorem route2_inner_sound (oneHop : List (NodeID × OneHopNeighborEntry))
    (twoHop : List (NodeID × List NodeID))
    (topo : List (NodeID × List (NodeID × TopologyEntry)))
    (nbr : NodeID) (set0 : List NodeID) (hmem : (nbr, set0) ∈ twoHop) :
    ∀ (l : List NodeID) (rt : List (NodeID × RoutingEntry)),
      (∀ d ∈ l, d ∈ set0) → SoundTable oneHop twoHop topo rt →
      SoundTable oneHop twoHop topo (l.foldl (route2Step nbr) rt) := by
  intro l
  induction l with
  | nil => exact fun rt _ hP => hP
  | cons d rest ih =>
      intro rt hsub hP
      rw [List.foldl_cons]
      refine ih _ (fun d' h => hsub d' (List.mem_cons_of_mem _ h)) ?_
      have hd0 : d ∈ set0 := hsub d (List.mem_cons_self _ _)
      unfold route2Step
      rcases hlk : alookup rt d with _ | r₀
      · simp only [hlk]
        intro kv hkv
        have hsubm := alookup_ainsert_submap
          (v := { dst := d, nextHop := nbr, distance := 2 }) hlk
        rcases mem_ainsert hkv with rfl | hkv'
        · exact ⟨rfl, Or.inr (Or.inl ⟨rfl, (nbr, set0), hmem, rfl, hd0⟩)⟩
        · exact routeSound_mono oneHop twoHop topo hsubm (hP kv hkv')
      · simp only [hlk]
        exact hP

theorem routePhase2_sound (oneHop : List (NodeID × OneHopNeighborEntry))
    (twoHop : List (NodeID × List NodeID))
    (topo : List (NodeID × List (NodeID × TopologyEntry))) :
    ∀ (l : List (NodeID × List NodeID)) (rt : List (NodeID × RoutingEntry)),
      (∀ kv ∈ l, kv ∈ twoHop) → SoundTable oneHop twoHop topo rt →
      SoundTable oneHop twoHop topo
        (l.foldl (fun rt kv => kv.2.foldl (route2Step kv.1) rt) rt) := by
  intro l
  induction l with
  | nil => exact fun rt _ hP => hP
  | cons kv₀ rest ih =>
      intro rt hsub hP
      rw [List.foldl_cons]
      refine ih _ (fun kv h => hsub kv (List.mem_cons_of_mem _ h)) ?_
      have hmem : (kv₀.1, kv₀.2) ∈ twoHop := by
        rw [Prod.mk.eta]
        exact hsub kv₀ (List.mem_cons_self _ _)
      exact route2_inner_sound oneHop twoHop topo kv₀.1 kv₀.2 hmem kv₀.2 rt
        (fun _ h => h) hP

theorem route3_inner_sound (oneHop : List (NodeID × OneHopNeighborEntry))
    (twoHop : List (NodeID × List NodeID))
    (topo : List (NodeID × List (NodeID × TopologyEntry)))
    (h : Nat) (hh : 2 ≤ h) (okv : NodeID × List (NodeID × TopologyEntry))
    (hokv : okv ∈ topo) :
    ∀ (l : List (NodeID × TopologyEntry)) (acc : List (NodeID × RoutingEntry) × Bool),
      (∀ e ∈ l, e ∈ okv.2) → SoundTable oneHop twoHop topo acc.1 →
      SoundTable oneHop twoHop topo ((l.foldl (route3Step h) acc).1) := by
  intro l
  induction l with
  | nil => exact fun acc _ hP => hP
  | cons ekv rest ih =>
      intro acc hsub hP
      rw [List.foldl_cons]
      refine ih _ (fun e he => hsub e (List.mem_cons_of_mem _ he)) ?_
      have hekv : ekv ∈ okv.2 := hsub ekv (List.mem_cons_self _ _)
      unfold route3Step
      rcases hd : alookup acc.1 ekv.2.dst with _ | r₀
      · rcases ho : alookup acc.1 ekv.2.originator with _ | rEntry
        · simp only [hd, ho]
          exact hP
        · by_cases hdist : rEntry.distance = h
          · simp only [hd, ho, if_pos hdist]
            intro kv hkv
            have hsubm := alookup_ainsert_submap
              (v := { dst := ekv.2.dst, nextHop := rEntry.nextHop, distance := h + 1 })
              hd
            rcases mem_ainsert hkv with rfl | hkv'
            · refine ⟨rfl, Or.inr (Or.inr ⟨show 2 < h + 1 by omega,
                ekv.2.originator, rEntry,
                hsubm _ _ ho, ?_, rfl, okv, hokv, ekv, hekv, rfl, rfl⟩)⟩
              show rEntry.distance = h + 1 - 1
              omega
            · exact routeSound_mono oneHop twoHop topo hsubm (hP kv hkv')
          · simp only [hd, ho, if_neg hdist]
            exact hP
      · simp only [hd]
        exact hP

theorem routePass_sound (oneHop : List (NodeID × OneHopNeighborEntry))
    (twoHop : List (NodeID × List NodeID))
    (topo : List (NodeID × List (NodeID × TopologyEntry)))
    (h : Nat) (hh : 2 ≤ h) :
    ∀ (l : List (NodeID × List (NodeID × TopologyEntry)))
      (acc : List (NodeID × RoutingEntry) × Bool),
      (∀ okv ∈ l, okv ∈ topo) → SoundTable oneHop twoHop topo acc.1 →
      SoundTable oneHop twoHop topo
        ((l.foldl (fun acc okv => okv.2.foldl (route3Step h) acc) acc).1) := by
  intro l
  induction l with
  | nil => exact fun acc _ hP => hP
  | cons okv rest ih =>
      intro acc hsub hP
      rw [List.foldl_cons]
      refine ih _ (fun o hmm => hsub o (List.mem_cons_of_mem _ hmm)) ?_
      exact route3_inner_sound oneHop twoHop topo h hh okv
        (hsub okv (List.mem_cons_self _ _)) okv.2 acc (fun _ he => he) hP

theorem routePhase3_sound (oneHop : List (NodeID × OneHopNeighborEntry))
    (twoHop : List (NodeID × List NodeID))
    (topo : List (NodeID × List (NodeID × TopologyEntry))) :
    ∀ (hs : List Nat) (rt : List (NodeID × RoutingEntry)),
      (∀ h ∈ hs, 2 ≤ h) → SoundTable oneHop twoHop topo rt →
      SoundTable oneHop twoHop topo (routePhase3 topo hs rt) := by
  intro hs
  induction hs with
  | nil => exact fun rt _ hP => hP
  | cons h rest ih =>
      intro rt hhs hP
      unfold routePhase3
      have hh : 2 ≤ h := hhs h (List.mem_cons_self _ _)
      have hpass : SoundTable oneHop twoHop topo (routePass topo h rt).1 :=
        routePass_sound oneHop twoHop topo h hh topo (rt, false) (fun _ hm => hm) hP
      by_cases hb : (routePass topo h rt).2 = true
      · rw [if_pos hb]
        exact ih _ (fun h' hm => hhs h' (List.mem_cons_of_mem _ hm)) hpass
      · rw [if_neg hb]
        exact hpass

/-- C3 (amended).  After every routing-table rebuild, every entry
`(d, next, k)` satisfies: `d` is recorded as its own destination; `k = 1`
implies `next = d` and `d` is a Bidirectional/MPR one-hop neighbor; `k = 2`
implies `next` owns a two-hop slot containing `d` (but need NOT be
Bidirectional or MPR — the source adds distance-2 routes through
`Unidirectional` neighbors too, refuting the claim as stated, see
`c3_routing_soundness_counterexample`); and `k > 2` implies the table routes
some originator `O` at distance `k - 1` with the same next hop and a
topology entry `(d, O)` exists. -/
theorem c3_routing_soundness :
    ∀ (oneHopNeighbors : List (NodeID × OneHopNeighborEntry))
      (twoHopNeighbors : List (NodeID × List NodeID))
      (topologyTable : List (NodeID × List (NodeID × TopologyEntry)))
      (kv : NodeID × RoutingEntry),
      kv ∈ calculateRoutingTable oneHopNeighbors twoHopNeighbors topologyTable →
      RouteSound oneHopNeighbors twoHopNeighbors topologyTable
        (calculateRoutingTable oneHopNeighbors twoHopNeighbors topologyTable) kv := by
  intro oneHop twoHop topo
  have h1 := routePhase1_sound oneHop twoHop topo
  have h2 := routePhase2_sound oneHop twoHop topo twoHop (routePhase1 oneHop)
    (fun _ h => h) h1
  have h3 := routePhase3_sound oneHop twoHop topo (List.range' 2 254)
    (routePhase2 twoHop (routePhase1 oneHop))
    (fun h hm => ((List.mem_range'_1).mp hm).1) h2
  exact h3

/-- Counterexample refuting C3 as stated: a HELLO-derived state where
neighbor 1 is `Unidirectional` yet owns two-hop destination 2 produces the
routing entry (2, nextHop 1, distance 2) whose next hop is not a
Bidirectional/MPR neighbor. -/
theorem c3_routing_soundness_counterexample :
    ¬ ClaimedRoutingSoundness [(1, ⟨1, NeighborState.Unidirectional, 20⟩)]
      [(1, [2])] [] := by
  intro h
  have hkv := h (2, ⟨2, 1, 2⟩) (by decide)
  rcases hkv with h1 | h2 | h3
  · exact absurd h1.1 (by decide)
  · obtain ⟨_, ⟨kw, hkw, hnid, hstate⟩, _⟩ := h2
    have hkw' : kw = (1, (⟨1, NeighborState.Unidirectional, 20⟩ : OneHopNeighborEntry)) := by
      simpa using hkw
    subst hkw'
    rcases hstate with hs | hs <;> exact absurd hs (by decide)
  · exact absurd h3.1 (by decide)

/-- Witness for C3 at a concrete rebuild with a single bidirectional
neighbor. -/
theorem c3_routing_soundness_witness :
    ((1 : NodeID), (⟨1, 1, 1⟩ : RoutingEntry)) ∈ calculateRoutingTable
      [(1, ⟨1, NeighborState.Bidirectional, 20⟩)] [] [] ∧
    RouteSound [(1, ⟨1, NeighborState.Bidirectional, 20⟩)] [] []
      (calculateRoutingTable [(1, ⟨1, NeighborState.Bidirectional, 20⟩)] [] [])
      (1, ⟨1, 1, 1⟩) :=
  ⟨by decide,
   c3_routing_soundness [(1, ⟨1, NeighborState.Bidirectional, 20⟩)] [] []
     (1, ⟨1, 1, 1⟩) (by decide)⟩

/-! ## C6/C10: invariants of reachable node states -/

theorem ainsert_entry_wf {oh : List (NodeID × OneHopNeighborEntry)} {id k : NodeID}
    {v : OneHopNeighborEntry}
    (hnd : (akeys oh).Nodup) (hnid : ∀ kv ∈ oh, kv.2.neighborID = kv.1)
    (hself : ∀ kv ∈ oh, kv.1 ≠ id) (hvk : v.neighborID = k) (hk : k ≠ id) :
    (akeys (ainsert oh k v)).Nodup ∧
    (∀ kv ∈ ainsert oh k v, kv.2.neighborID = kv.1) ∧
    (∀ kv ∈ ainsert oh k v, kv.1 ≠ id) ∧
    (∀ k' ∈ akeys oh, k' ∈ akeys (ainsert oh k v)) ∧
    k ∈ akeys (ainsert oh k v) := by
  refine ⟨nodup_akeys_ainsert k v hnd, ?_, ?_, ?_, ?_⟩
  · intro kv hkv
    rcases mem_ainsert hkv with rfl | hkv'
    · exact hvk
    · exact hnid kv hkv'
  · intro kv hkv
    rcases mem_ainsert hkv with rfl | hkv'
    · exact hk
    · exact hself kv hkv'
  · intro k' hk'
    by_cases hm : k ∈ akeys oh
    · rw [akeys_ainsert_of_mem v hm]
      exact hk'
    · rw [akeys_ainsert_of_not_mem v hm]
      exact List.mem_append_left _ hk'
  · refine (mem_akeys _ _).mpr ⟨v, ?_⟩
    rw [alookup_ainsert]
    simp

theorem updateOneHop_wf {msg : HelloMessage} {oh : List (NodeID × OneHopNeighborEntry)}
    {hold : Nat} {id : NodeID}
    (hnd : (akeys oh).Nodup) (hnid : ∀ kv ∈ oh, kv.2.neighborID = kv.1)
    (hself : ∀ kv ∈ oh, kv.1 ≠ id) (hsrc : msg.src ≠ id) :
    (akeys (updateOneHopNeighbors msg oh hold id)).Nodup ∧
    (∀ kv ∈ updateOneHopNeighbors msg oh hold id, kv.2.neighborID = kv.1) ∧
    (∀ kv ∈ updateOneHopNeighbors msg oh hold id, kv.1 ≠ id) ∧
    (∀ k' ∈ akeys oh, k' ∈ akeys (updateOneHopNeighbors msg oh hold id)) ∧
    msg.src ∈ akeys (updateOneHopNeighbors msg oh hold id) := by
  unfold updateOneHopNeighbors
  rcases he : alookup oh msg.src with _ | entry
  · exact ainsert_entry_wf hnd hnid hself rfl hsrc
  · have hent : (msg.src, entry) ∈ oh := alookup_mem he
    exact ainsert_entry_wf hnd hnid hself (hnid _ hent) hsrc

theorem akeys_updateMPRStates (oh : List (NodeID × OneHopNeighborEntry))
    (mprs : List NodeID) : akeys (updateMPRStates oh mprs) = akeys oh := by
  induction oh with
  | nil => rfl
  | cons kv rest ih =>
      simp only [updateMPRStates, List.map_cons] at ih ⊢
      by_cases hm : kv.1 ∈ mprs
      · simp only [akeys, List.map_cons, if_pos hm] at ih ⊢
        rw [ih]
      · by_cases hs : kv.2.state = NeighborState.MPR
        · simp only [akeys, List.map_cons, if_neg hm, if_pos hs] at ih ⊢
          rw [ih]
        · simp only [akeys, List.map_cons, if_neg hm, if_neg hs] at ih ⊢
          rw [ih]

theorem mem_updateMPRStates {oh : List (NodeID × OneHopNeighborEntry)}
    {mprs : List NodeID} {kv : NodeID × OneHopNeighborEntry}
    (h : kv ∈ updateMPRStates oh mprs) :
    ∃ kv₀ ∈ oh, kv.1 = kv₀.1 ∧ kv.2.neighborID = kv₀.2.neighborID := by
  obtain ⟨kv₀, hkv₀, he⟩ := List.mem_map.mp h
  refine ⟨kv₀, hkv₀, ?_⟩
  by_cases hm : kv₀.1 ∈ mprs
  · rw [if_pos hm] at he
    rw [← he]
    exact ⟨rfl, rfl⟩
  · by_cases hs : kv₀.2.state = NeighborState.MPR
    · rw [if_neg hm, if_pos hs] at he
      rw [← he]
      exact ⟨rfl, rfl⟩
    · rw [if_neg hm, if_neg hs] at he
      rw [← he]
      exact ⟨rfl, rfl⟩

theorem calculateMPRs_some {oh : List (NodeID × OneHopNeighborEntry)}
    {th : List (NodeID × List NodeID)} {r : List (NodeID × OneHopNeighborEntry)}
    (h : calculateMPRs oh th = some r) : ∃ ms, r = updateMPRStates oh ms := by
  simp only [calculateMPRs] at h
  rcases hm : mprLoop th
      ((buildCandidates oh th).1.insertionSort (fun a b => a.reaches ≥ b.reaches))
      (buildCandidates oh th).2 with _ | ms
  · rw [hm] at h
    exact Option.noConfusion h
  · rw [hm] at h
    exact ⟨ms, (Option.some.inj h).symm⟩

theorem handleHelloBody_wf {n : Node} {msg : HelloMessage} {n' : Node}
    (hwf : NodeWF n) (hsrc : msg.src ≠ n.id)
    (h : handleHelloBody n msg = some n') : NodeWF n' ∧ n'.id = n.id := by
  obtain ⟨hnd, hnid, hself, hsub⟩ := hwf
  simp only [handleHelloBody] at h
  rcases hm : calculateMPRs
      (updateOneHopNeighbors msg n.oneHopNeighbors
        (n.currentTick + neighborHoldTime) n.id)
      (updateTwoHopNeighbors msg n.twoHopNeighbors n.id) with _ | oneHop'
  · rw [hm] at h
    exact Option.noConfusion h
  · rw [hm] at h
    simp only [Option.some.injEq] at h
    obtain ⟨ms, hms⟩ := calculateMPRs_some hm
    obtain ⟨hnd', hnid', hself', hgrow, hsrcmem⟩ :=
      @updateOneHop_wf msg n.oneHopNeighbors (n.currentTick + neighborHoldTime)
        n.id hnd hnid hself hsrc
    rw [← h]
    have hkeys : akeys oneHop' =
        akeys (updateOneHopNeighbors msg n.oneHopNeighbors
          (n.currentTick + neighborHoldTime) n.id) := by
      rw [hms, akeys_updateMPRStates]
    refine ⟨⟨?_, ?_, ?_, ?_⟩, rfl⟩
    · simpa only [hkeys] using hnd'
    · intro kv hkv
      rw [hms] at hkv
      obtain ⟨kv₀, hkv₀, h1, h2⟩ := mem_updateMPRStates hkv
      rw [h2, h1]
      exact hnid' kv₀ hkv₀
    · intro kv hkv
      rw [hms] at hkv
      obtain ⟨kv₀, hkv₀, h1, _⟩ := mem_updateMPRStates hkv
      rw [h1]
      exact hself' kv₀ hkv₀
    · intro kv hkv
      simp only [updateTwoHopNeighbors] at hkv
      rw [hkeys]
      rcases mem_ainsert hkv with rfl | hkv'
      · exact hsrcmem
      · exact hgrow kv.1 (hsub kv hkv')

theorem handleHello_wf {n : Node} {msg : HelloMessage} {n' : Node}
    (hwf : NodeWF n) (hsrc : msg.src ≠ n.id)
    (h : handleHello n msg = some n') : NodeWF n' ∧ n'.id = n.id := by
  unfold handleHello at h
  split at h
  · rename_i hnone
    exact @handleHelloBody_wf
      { n with helloSequences := ainsert n.helloSequences msg.src msg.seq }
      msg n' hwf hsrc h
  · rename_i q hsome
    by_cases hle : msg.seq ≤ q
    · rw [if_pos hle] at h
      rw [← Option.some.inj h]
      exact ⟨hwf, rfl⟩
    · rw [if_neg hle] at h
      exact @handleHelloBody_wf
        { n with helloSequences := ainsert n.helloSequences msg.src msg.seq }
        msg n' hwf hsrc h

theorem initNode_wf (id : NodeID) : NodeWF (initNode id) := by
  refine ⟨?_, ?_, ?_, ?_⟩ <;> simp [initNode, akeys, NodeWF]

theorem wf_of_components {a b : Node} (h1 : a.oneHopNeighbors = b.oneHopNeighbors)
    (h2 : a.twoHopNeighbors = b.twoHopNeighbors) (h3 : a.id = b.id)
    (hwf : NodeWF b) : NodeWF a := by
  unfold NodeWF at hwf ⊢
  rw [h1, h2, h3]
  exact hwf

theorem handleTC_preserves (n : Node) (msg : TCMessage) :
    (handleTC n msg).1.oneHopNeighbors = n.oneHopNeighbors ∧
    (handleTC n msg).1.twoHopNeighbors = n.twoHopNeighbors ∧
    (handleTC n msg).1.id = n.id := by
  by_cases h : msg.src = n.id
  · simp [handleTC, h]
  · simp only [handleTC, if_neg h]
    split
    · exact ⟨rfl, rfl, rfl⟩
    · exact ⟨rfl, rfl, rfl⟩

theorem sendData_preserves (n : Node) (msg : DataMessage) :
    (sendData n msg).1.oneHopNeighbors = n.oneHopNeighbors ∧
    (sendData n msg).1.twoHopNeighbors = n.twoHopNeighbors ∧
    (sendData n msg).1.id = n.id := by
  unfold sendData
  split
  · exact ⟨rfl, rfl, rfl⟩
  · exact ⟨rfl, rfl, rfl⟩

theorem handleData_preserves (n : Node) (msg : DataMessage) :
    (handleData n msg).1.oneHopNeighbors = n.oneHopNeighbors ∧
    (handleData n msg).1.twoHopNeighbors = n.twoHopNeighbors ∧
    (handleData n msg).1.id = n.id := by
  unfold handleData
  split
  · exact ⟨rfl, rfl, rfl⟩
  · exact sendData_preserves n msg

theorem expireEntries_wf {n : Node} (hwf : NodeWF n) : NodeWF (expireEntries n) := by
  obtain ⟨hnd, hnid, hself, hsub⟩ := hwf
  refine ⟨?_, ?_, ?_, ?_⟩
  · have hsl : (expireEntries n).oneHopNeighbors.Sublist n.oneHopNeighbors :=
      List.filter_sublist _
    exact (hsl.map Prod.fst).nodup hnd
  · intro kv hkv
    exact hnid kv (List.mem_filter.mp hkv).1
  · intro kv hkv
    exact hself kv (List.mem_filter.mp hkv).1
  · intro kv hkv
    obtain ⟨hkv', hp⟩ := List.mem_filter.mp hkv
    have hk1 : kv.1 ∈ akeys n.oneHopNeighbors := hsub kv hkv'
    obtain ⟨e, he⟩ := (mem_akeys _ _).mp hk1
    rw [he] at hp
    simp only [decide_eq_true_eq] at hp
    have hmem : (kv.1, e) ∈ n.oneHopNeighbors := alookup_mem he
    have hkeep : (kv.1, e) ∈ (expireEntries n).oneHopNeighbors := by
      refine List.mem_filter.mpr ⟨hmem, ?_⟩
      simpa using hp
    exact List.mem_map.mpr ⟨(kv.1, e), hkeep, rfl⟩

theorem reachable_wf : ∀ {n : Node}, Reachable n → NodeWF n := by
  intro n h
  induction h with
  | init id => exact initNode_wf id
  | step hr hstep ih =>
      rename_i m m'
      cases hstep with
      | hello msg n' hsrc hh => exact (handleHello_wf ih hsrc hh).1
      | tc msg =>
          obtain ⟨h1, h2, h3⟩ := handleTC_preserves m msg
          exact wf_of_components h1 h2 h3 ih
      | data msg =>
          obtain ⟨h1, h2, h3⟩ := handleData_preserves m msg
          exact wf_of_components h1 h2 h3 ih
      | sendH => exact wf_of_components rfl rfl rfl ih
      | sendT => exact wf_of_components rfl rfl rfl ih
      | sendD msg =>
          obtain ⟨h1, h2, h3⟩ := sendData_preserves m msg
          exact wf_of_components h1 h2 h3 ih
      | expire => exact expireEntries_wf ih
      | recalc => exact wf_of_components rfl rfl rfl ih
      | tick => exact wf_of_components rfl rfl rfl ih

/-- C10.  In every node state reachable from initialization via message
handlers, emissions, expiry sweeps, routing recalculations and tick
increments, every key of the two-hop table is also a key of the one-hop
table. -/
theorem c10_twohop_keys_subset_onehop :
    ∀ (n : Node), Reachable n →
      ∀ k, k ∈ akeys n.twoHopNeighbors → k ∈ akeys n.oneHopNeighbors := by
  intro n h k hk
  obtain ⟨v, hv⟩ := (mem_akeys _ _).mp hk
  exact (reachable_wf h).2.2.2 (k, v) (alookup_mem hv)

/-- Witness for C10 at the concrete reachable state `helloState1`, whose
two-hop table has key 1. -/
theorem c10_twohop_keys_subset_onehop_witness :
    handleHello (initNode 0) ⟨1, [], [2], [], 0⟩ = some helloState1 ∧
    (1 : NodeID) ∈ akeys helloState1.twoHopNeighbors ∧
    (1 : NodeID) ∈ akeys helloState1.oneHopNeighbors :=
  ⟨by decide, by decide,
   c10_twohop_keys_subset_onehop helloState1
     (Reachable.step (Reachable.init 0)
       (Step.hello (initNode 0) ⟨1, [], [2], [], 0⟩ helloState1 (by decide) (by decide)))
     1 (by decide)⟩

theorem alookup_unique {oh : List (NodeID × OneHopNeighborEntry)}
    (hnd : (akeys oh).Nodup) {k : NodeID} {e e' : OneHopNeighborEntry}
    (h1 : (k, e) ∈ oh) (h2 : (k, e') ∈ oh) : e = e' := by
  have ha := alookup_of_mem_nodup hnd h1
  have hb := alookup_of_mem_nodup hnd h2
  rw [ha] at hb
  exact Option.some.inj hb

theorem helloLists_fold (oh : List (NodeID × OneHopNeighborEntry)) :
    ∀ acc : List NodeID × List NodeID × List NodeID,
      oh.foldl
        (fun acc kv =>
          match kv.2.state with
          | NeighborState.Unidirectional =>
              (acc.1 ++ [kv.2.neighborID], acc.2.1, acc.2.2)
          | NeighborState.Bidirectional =>
              (acc.1, acc.2.1 ++ [kv.2.neighborID], acc.2.2)
          | NeighborState.MPR => (acc.1, acc.2.1, acc.2.2 ++ [kv.2.neighborID]))
        acc =
      (acc.1 ++ (oh.filter
          (fun kv => kv.2.state = NeighborState.Unidirectional)).map
          (fun kv => kv.2.neighborID),
       acc.2.1 ++ (oh.filter
          (fun kv => kv.2.state = NeighborState.Bidirectional)).map
          (fun kv => kv.2.neighborID),
       acc.2.2 ++ (oh.filter
          (fun kv => kv.2.state = NeighborState.MPR)).map
          (fun kv => kv.2.neighborID)) := by
  induction oh with
  | nil =>
      intro acc
      simp
  | cons kv rest ih =>
      intro acc
      rcases hs : kv.2.state with _ | _ | _
      · simp only [List.foldl_cons, hs]
        rw [ih]
        simp [List.filter_cons, hs, List.append_assoc]
      · simp only [List.foldl_cons, hs]
        rw [ih]
        simp [List.filter_cons, hs, List.append_assoc]
      · simp only [List.foldl_cons, hs]
        rw [ih]
        simp [List.filter_cons, hs, List.append_assoc]

theorem mem_helloLists (oh : List (NodeID × OneHopNeighborEntry))
    (hnid : ∀ kv ∈ oh, kv.2.neighborID = kv.1) :
    (∀ x, x ∈ (helloLists oh).1 ↔
      ∃ kv, kv ∈ oh ∧ kv.1 = x ∧ kv.2.state = NeighborState.Unidirectional) ∧
    (∀ x, x ∈ (helloLists oh).2.1 ↔
      ∃ kv, kv ∈ oh ∧ kv.1 = x ∧ kv.2.state = NeighborState.Bidirectional) ∧
    (∀ x, x ∈ (helloLists oh).2.2 ↔
      ∃ kv, kv ∈ oh ∧ kv.1 = x ∧ kv.2.state = NeighborState.MPR) := by
  have heq := helloLists_fold oh ([], [], [])
  have hL : helloLists oh =
      ((oh.filter (fun kv => kv.2.state = NeighborState.Unidirectional)).map
        (fun kv => kv.2.neighborID),
       (oh.filter (fun kv => kv.2.state = NeighborState.Bidirectional)).map
        (fun kv => kv.2.neighborID),
       (oh.filter (fun kv => kv.2.state = NeighborState.MPR)).map
        (fun kv => kv.2.neighborID)) := by
    unfold helloLists
    simpa using heq
  refine ⟨?_, ?_, ?_⟩ <;> intro x <;> rw [hL] <;>
    simp only [List.mem_map, List.mem_filter, decide_eq_true_eq] <;>
    constructor
  · rintro ⟨kv, ⟨hmem, hstate⟩, hx⟩
    exact ⟨kv, hmem, by rw [← hnid kv hmem]; exact hx, hstate⟩
  · rintro ⟨kv, hmem, hx, hstate⟩
    exact ⟨kv, ⟨hmem, hstate⟩, by rw [hnid kv hmem]; exact hx⟩
  · rintro ⟨kv, ⟨hmem, hstate⟩, hx⟩
    exact ⟨kv, hmem, by rw [← hnid kv hmem]; exact hx, hstate⟩
  · rintro ⟨kv, hmem, hx, hstate⟩
    exact ⟨kv, ⟨hmem, hstate⟩, by rw [hnid kv hmem]; exact hx⟩
  · rintro ⟨kv, ⟨hmem, hstate⟩, hx⟩
    exact ⟨kv, hmem, by rw [← hnid kv hmem]; exact hx, hstate⟩
  · rintro ⟨kv, hmem, hx, hstate⟩
    exact ⟨kv, ⟨hmem, hstate⟩, by rw [hnid kv hmem]; exact hx⟩

/-- C6.  In every HELLO a reachable node emits, the three ID lists are
pairwise disjoint, none contains the emitting node's own ID, their union is
exactly the key set of the current one-hop table, and each neighbor sits in
the bucket matching its current state. -/
theorem c6_hello_partition :
    ∀ (s : Node), Reachable s →
      ((buildHello s).unidir.Disjoint (buildHello s).bidir ∧
       (buildHello s).unidir.Disjoint (buildHello s).mpr ∧
       (buildHello s).bidir.Disjoint (buildHello s).mpr) ∧
      (s.id ∉ (buildHello s).unidir ∧ s.id ∉ (buildHello s).bidir ∧
        s.id ∉ (buildHello s).mpr) ∧
      (∀ x, (x ∈ (buildHello s).unidir ∨ x ∈ (buildHello s).bidir ∨
          x ∈ (buildHello s).mpr) ↔ x ∈ akeys s.oneHopNeighbors) ∧
      (∀ x e, alookup s.oneHopNeighbors x = some e →
        (e.state = NeighborState.Unidirectional ↔ x ∈ (buildHello s).unidir) ∧
        (e.state = NeighborState.Bidirectional ↔ x ∈ (buildHello s).bidir) ∧
        (e.state = NeighborState.MPR ↔ x ∈ (buildHello s).mpr)) := by
  intro s hr
  obtain ⟨hnd, hnid, hself, _⟩ := reachable_wf hr
  have hu : (buildHello s).unidir = (helloLists s.oneHopNeighbors).1 := rfl
  have hb : (buildHello s).bidir = (helloLists s.oneHopNeighbors).2.1 := rfl
  have hm : (buildHello s).mpr = (helloLists s.oneHopNeighbors).2.2 := rfl
  obtain ⟨hU, hB, hM⟩ := mem_helloLists s.oneHopNeighbors hnid
  rw [hu, hb, hm]
  have hdisj : ∀ (p q : NeighborState), p ≠ q →
      ∀ x, (∃ kv, kv ∈ s.oneHopNeighbors ∧ kv.1 = x ∧ kv.2.state = p) →
        ¬ ∃ kv, kv ∈ s.oneHopNeighbors ∧ kv.1 = x ∧ kv.2.state = q := by
    rintro p q hpq x ⟨kv, hkv, hk1, hst⟩ ⟨kv', hkv', hk1', hst'⟩
    have hkv2 : (x, kv.2) ∈ s.oneHopNeighbors := by
      rw [← hk1]
      exact hkv
    have hkv2' : (x, kv'.2) ∈ s.oneHopNeighbors := by
      rw [← hk1']
      exact hkv'
    have he := alookup_unique hnd hkv2 hkv2'
    rw [← hst, ← hst'] at hpq
    rw [he] at hpq
    exact hpq rfl
  refine ⟨⟨?_, ?_, ?_⟩, ⟨?_, ?_, ?_⟩, ?_, ?_⟩
  · intro a haU haB
    exact hdisj NeighborState.Unidirectional NeighborState.Bidirectional
      (by decide) a ((hU a).mp haU) ((hB a).mp haB)
  · intro a haU haM
    exact hdisj NeighborState.Unidirectional NeighborState.MPR
      (by decide) a ((hU a).mp haU) ((hM a).mp haM)
  · intro a haB haM
    exact hdisj NeighborState.Bidirectional NeighborState.MPR
      (by decide) a ((hB a).mp haB) ((hM a).mp haM)
  · intro hmem
    obtain ⟨kv, hkv, hk1, _⟩ := (hU s.id).mp hmem
    exact hself kv hkv hk1
  · intro hmem
    obtain ⟨kv, hkv, hk1, _⟩ := (hB s.id).mp hmem
    exact hself kv hkv hk1
  · intro hmem
    obtain ⟨kv, hkv, hk1, _⟩ := (hM s.id).mp hmem
    exact hself kv hkv hk1
  · intro x
    constructor
    · rintro (hx | hx | hx)
      · obtain ⟨kv, hkv, hk1, _⟩ := (hU x).mp hx
        exact List.mem_map.mpr ⟨kv, hkv, hk1⟩
      · obtain ⟨kv, hkv, hk1, _⟩ := (hB x).mp hx
        exact List.mem_map.mpr ⟨kv, hkv, hk1⟩
      · obtain ⟨kv, hkv, hk1, _⟩ := (hM x).mp hx
        exact List.mem_map.mpr ⟨kv, hkv, hk1⟩
    · intro hx
      obtain ⟨v, hv⟩ := (mem_akeys _ _).mp hx
      have hvm : (x, v) ∈ s.oneHopNeighbors := alookup_mem hv
      rcases hs : v.state with _ | _ | _
      · exact Or.inr (Or.inl ((hB x).mpr ⟨(x, v), hvm, rfl, hs⟩))
      · exact Or.inl ((hU x).mpr ⟨(x, v), hvm, rfl, hs⟩)
      · exact Or.inr (Or.inr ((hM x).mpr ⟨(x, v), hvm, rfl, hs⟩))
  · intro x e he
    have hem : (x, e) ∈ s.oneHopNeighbors := alookup_mem he
    have hback : ∀ (p : NeighborState),
        (∃ kv, kv ∈ s.oneHopNeighbors ∧ kv.1 = x ∧ kv.2.state = p) →
        e.state = p := by
      rintro p ⟨kv, hkv, hk1, hst⟩
      have hkv2 : (x, kv.2) ∈ s.oneHopNeighbors := by
        rw [← hk1]
        exact hkv
      rw [alookup_unique hnd hem hkv2]
      exact hst
    refine ⟨⟨?_, ?_⟩, ⟨?_, ?_⟩, ⟨?_, ?_⟩⟩
    · intro hs
      exact (hU x).mpr ⟨(x, e), hem, rfl, hs⟩
    · intro hx
      exact hback NeighborState.Unidirectional ((hU x).mp hx)
    · intro hs
      exact (hB x).mpr ⟨(x, e), hem, rfl, hs⟩
    · intro hx
      exact hback NeighborState.Bidirectional ((hB x).mp hx)
    · intro hs
      exact (hM x).mpr ⟨(x, e), hem, rfl, hs⟩
    · intro hx
      exact hback NeighborState.MPR ((hM x).mp hx)

/-- Witness for C6 at the concrete reachable state `helloState1`. -/
theorem c6_hello_partition_witness :
    Reachable helloState1 ∧
    (buildHello helloState1).unidir.Disjoint (buildHello helloState1).bidir ∧
    helloState1.id ∉ (buildHello helloState1).unidir ∧
    (∀ x, (x ∈ (buildHello helloState1).unidir ∨
        x ∈ (buildHello helloState1).bidir ∨ x ∈ (buildHello helloState1).mpr) ↔
      x ∈ akeys helloState1.oneHopNeighbors) := by
  have hreach : Reachable helloState1 :=
    Reachable.step (Reachable.init 0)
      (Step.hello (initNode 0) ⟨1, [], [2], [], 0⟩ helloState1 (by decide) (by decide))
  have h := c6_hello_partition helloState1 hreach
  exact ⟨hreach, h.1.1, h.2.1.1, h.2.2.1⟩
